import Mathlib

/-!
Verification of `tools/buildman/boards.py` (board-database build pipeline).

Python strings are modelled as `List Char` (`PyStr`); Python's fallible
operations return `Option`.  Interactions with the operating system
(filesystem walks, `glob.glob`, `os.path.exists`, regular-expression
matching from the `re` module) are modelled as oracle parameters, since
they are external to the translated code.  Every definition is written
to be executable so concrete inputs can be evaluated by `decide`/`rfl`.
-/

namespace Buildman

/-- Python strings are finite character sequences. -/
abbrev PyStr := List Char

/-- Convenience conversion from Lean string literals. -/
def pys (s : String) : PyStr := s.data

/-- Single-quote character (codepoint 39), used when building warning texts. -/
def sq : PyStr := [Char.ofNat 39]

/-- Whitespace predicate of Python `str.split()` / `str.strip()`
(ASCII whitespace; the exotic Unicode space classes are not used by
any string this program manipulates). -/
def pyIsSpace (c : Char) : Bool :=
  c = ' ' || c = '\t' || c = '\n' || c = '\r' || c = Char.ofNat 11 || c = Char.ofNat 12

/-- Accumulator worker for `pysplit`; `cur` holds the current word reversed. -/
def pysplitAux : PyStr → PyStr → List PyStr
  | [], cur => if cur = [] then [] else [cur.reverse]
  | c :: cs, cur =>
    if pyIsSpace c then
      if cur = [] then pysplitAux cs [] else cur.reverse :: pysplitAux cs []
    else pysplitAux cs (c :: cur)

/-- Python `s.split()` with no argument: split on runs of whitespace,
dropping empty fields. -/
def pysplit (s : PyStr) : List PyStr := pysplitAux s []

/-- Python `s.startswith(pre)`. -/
def pyStartsWith (s pre : PyStr) : Bool := s.take pre.length = pre

/-- Whether `pat` occurs in `s` starting at index `i`. -/
def subAt (s pat : PyStr) (i : Nat) : Bool := (s.drop i).take pat.length = pat

/-- Linear scan for the first occurrence of `pat` from index `i`, with fuel. -/
def findSubAux (s pat : PyStr) : Nat → Nat → Option Nat
  | _, 0 => none
  | i, fuel + 1 => if subAt s pat i then some i else findSubAux s pat (i + 1) fuel

/-- Index of the first occurrence of `pat` in `s`, if any. -/
def findSub (s pat : PyStr) : Option Nat := findSubAux s pat 0 (s.length + 1)

/-- Downward scan for the last occurrence of `pat` below the given bound. -/
def findSubLastAux (s pat : PyStr) : Nat → Option Nat
  | 0 => none
  | i + 1 => if subAt s pat i then some i else findSubLastAux s pat i

/-- Index of the last occurrence of `pat` in `s`, if any. -/
def findSubLast (s pat : PyStr) : Option Nat := findSubLastAux s pat (s.length + 1)

/-- Python `pat in s` (substring containment). -/
def containsSub (s pat : PyStr) : Bool := (findSub s pat).isSome

/-- Python `s.partition(pat)`: split at the first occurrence of `pat`;
when `pat` does not occur, the result is `(s, '', '')`. -/
def pypartition (s pat : PyStr) : PyStr × PyStr × PyStr :=
  match findSub s pat with
  | some i => (s.take i, pat, s.drop (i + pat.length))
  | none => (s, [], [])

/-- Python `s.rpartition(pat)`: split at the last occurrence of `pat`;
when `pat` does not occur, the result is `('', '', s)`. -/
def pyrpartition (s pat : PyStr) : PyStr × PyStr × PyStr :=
  match findSubLast s pat with
  | some i => (s.take i, pat, s.drop (i + pat.length))
  | none => ([], [], s)

/-- Python `s.strip()` with no argument. -/
def pystrip (s : PyStr) : PyStr :=
  ((s.dropWhile pyIsSpace).reverse.dropWhile pyIsSpace).reverse

/-- Python `s.ljust(w)` (always pads with spaces). -/
def pyljust (s : PyStr) (w : Nat) : PyStr := s ++ List.replicate (w - s.length) ' '

/-- Python `s.lower()` (restricted to the one-to-one case mappings,
which covers every string this program lowercases). -/
def pylower (s : PyStr) : PyStr := s.map Char.toLower

/-- Python `s.upper()` under the same restriction as `pylower`. -/
def pyupper (s : PyStr) : PyStr := s.map Char.toUpper

/-- Lexicographic comparison of strings by code point, as Python `<=` on `str`. -/
def lexLe : PyStr → PyStr → Bool
  | [], _ => true
  | _ :: _, [] => false
  | a :: as_, b :: bs => if a.val < b.val then true else if a.val = b.val then lexLe as_ bs else false

/-- Stable insertion of `x` into an already-sorted list: `x` is placed after
every element `y` with `le y x`, so later-inserted equals come last. -/
def insSorted (le : PyStr → PyStr → Bool) (x : PyStr) : List PyStr → List PyStr
  | [] => [x]
  | y :: ys => if le y x then y :: insSorted le x ys else x :: y :: ys

/-- Python `list.sort(...)` on strings: a stable ascending sort.  Python uses
Timsort; any stable sort for a total preorder computes the same list, and this
structurally recursive insertion sort is that sort. -/
def pysortBy (le : PyStr → PyStr → Bool) (l : List PyStr) : List PyStr :=
  l.foldl (fun acc x => insSorted le x acc) []

/-- Comparison used by `output_lines.sort(key=str.lower)`. -/
def lowerLe (a b : PyStr) : Bool := lexLe (pylower a) (pylower b)

/-- Python `os.path.join(a, b)` (POSIX, two arguments). -/
def pathJoin (a b : PyStr) : PyStr :=
  if b.head? = some '/' then b
  else if a = [] then b
  else if a.getLast? = some '/' then a ++ b
  else a ++ '/' :: b

/-- Python `os.path.basename(p)` (POSIX): the part after the last slash. -/
def basename (p : PyStr) : PyStr := (p.reverse.takeWhile (fun c => c ≠ '/')).reverse

/-!
### Expr and Term (boards.py lines 114-178)

An `Expr` stores the regular-expression source string.  The behaviour of the
compiled pattern's `match` method (anchored at the start of the probed string)
is an external `re`-module service and is passed everywhere as an oracle
`rm : PyStr → PyStr → Bool` taking the pattern source and the probed string.
For metacharacter-free patterns, `re.match` is exactly a prefix test, which
`litMatch` below provides for concrete evaluations.
-/

/-- Single regular expression for matching boards to build; `expr` is the
pattern source kept by `Expr.__init__`. -/
structure Expr where
  expr : PyStr
deriving DecidableEq

/-- Canonical string of an `Expr` (its `__str__`). -/
def Expr.str (e : Expr) : PyStr := e.expr

/-- Expr.matches: true if any of the properties match the regular expression. -/
def Expr.matchesB (rm : PyStr → PyStr → Bool) (e : Expr) (props : List PyStr) : Bool :=
  props.any (fun p => rm e.expr p)

/-- Behaviour of `re.match` for a pattern containing no regex metacharacters:
a match at the start of the string is exactly a prefix test. -/
def litMatch (pat s : PyStr) : Bool := pyStartsWith s pat

/-- List of AND expressions, each of which must match the board properties. -/
structure Term where
  expr_list : List Expr
deriving DecidableEq

/-- Term.add_expr: append one expression. -/
def Term.add_expr (t : Term) (e : PyStr) : Term := ⟨t.expr_list ++ [⟨e⟩]⟩

/-- Term.__str__: expression sources joined by the AND marker. -/
def Term.str (t : Term) : PyStr :=
  List.intercalate [Char.ofNat 38] (t.expr_list.map Expr.str)

/-- Term.matches: all of the expressions in the term must match. -/
def Term.matchesB (rm : PyStr → PyStr → Bool) (t : Term) (props : List PyStr) : Bool :=
  t.expr_list.all (fun e => Expr.matchesB rm e props)

/-!
### KconfigScanner.scan (boards.py lines 216-289)

The kconfiglib evaluator is external (§6 of the specification); it is
modelled as an environment of symbol values.  `sym` answers
`self._conf.syms.get(name).str_value` (empty string when the symbol is
unset); `syms_items` is the `self._conf.syms.items()` iteration used by the
`warn_targets` block; `rv32` is the `ARCH_RV32I` probe, with the empty
string standing for the `except:` fallback.
-/

/-- Evaluator state visible to one `scan` call. -/
structure ScanEnv where
  sym : PyStr → PyStr
  syms_items : List (PyStr × PyStr)
  rv32 : PyStr

/-- Parameter record produced by `scan`, with the keys of `_SYMBOL_TABLE`
plus `target`. -/
structure ScanParams where
  arch : PyStr
  cpu : PyStr
  soc : PyStr
  vendor : PyStr
  board : PyStr
  config : PyStr
  target : PyStr
deriving DecidableEq

/-- Sentinel substitution of lines 249-254: `'-'` when the value is empty. -/
def valOrDash (v : PyStr) : PyStr := if v = [] then pys "-" else v

/-- Architecture fix-ups of lines 274-287: arm+armv8 becomes aarch64, and
riscv is disambiguated to riscv32/riscv64 by the `ARCH_RV32I` value,
defaulting to riscv64. -/
def fixup_arch (rv32 : PyStr) (p : ScanParams) : ScanParams :=
  let p1 := if p.arch = pys "arm" ∧ p.cpu = pys "armv8" then { p with arch := pys "aarch64" } else p
  if p1.arch = pys "riscv" then
    { p1 with arch := if rv32 = pys "y" then pys "riscv32" else pys "riscv64" }
  else p1

/-- Warnings of the `warn_targets` block (lines 257-270): exactly one
`TARGET_xxx` symbol must be set to `'y'`. -/
def targetWarnings (env : ScanEnv) (leaf expect_target : PyStr) : List PyStr :=
  let step := fun (acc : Option PyStr × List PyStr) (it : PyStr × PyStr) =>
    if pyStartsWith it.1 (pys "TARGET_") ∧ it.2 = pys "y" then
      let tname := pylower (it.1.drop 7)
      match acc.1 with
      | some t =>
        (some t, acc.2 ++
          [pys "WARNING: " ++ leaf ++ pys ": Duplicate TARGET_xxx: " ++ t ++ pys " and " ++ tname])
      | none => (some tname, acc.2)
    else acc
  let res := env.syms_items.foldl step (none, [])
  match res.1 with
  | some _ => res.2
  | none =>
    let cfg_name := pyupper (expect_target.map (fun c => if c = '-' then '_' else c))
    res.2 ++ [pys "WARNING: " ++ leaf ++ pys ": No TARGET_" ++ cfg_name ++ pys " enabled"]

/-- KconfigScanner.scan: load a defconfig file and build the parameter
record.  `none` models the `assert match and not rear` failure on an invalid
defconfig filename. -/
def scan (env : ScanEnv) (defconfig : PyStr) (warn_targets : Bool) :
    Option (ScanParams × List PyStr) :=
  let leaf := basename defconfig
  let parts := pypartition leaf (pys "_defconfig")
  let expect_target := parts.1
  if parts.2.1 = [] ∨ parts.2.2 ≠ [] then none
  else
    let params : ScanParams :=
      { arch := valOrDash (env.sym (pys "SYS_ARCH"))
        cpu := valOrDash (env.sym (pys "SYS_CPU"))
        soc := valOrDash (env.sym (pys "SYS_SOC"))
        vendor := valOrDash (env.sym (pys "SYS_VENDOR"))
        board := valOrDash (env.sym (pys "SYS_BOARD"))
        config := valOrDash (env.sym (pys "SYS_CONFIG_NAME"))
        target := expect_target }
    let warns := if warn_targets then targetWarnings env leaf expect_target else []
    some (fixup_arch env.rv32 params, warns)

/-!
### MaintainersDatabase (boards.py lines 292-430)

The database dict is modelled by its lookup function; `dbSet` is item
assignment.  Query methods return the value paired with the list of
warnings they append to `self.warnings`.
-/

/-- Database mapping a build-target name to `(status, maintainer list)`. -/
abbrev MDb := PyStr → Option (PyStr × List PyStr)

/-- Empty database of `MaintainersDatabase.__init__`. -/
def emptyDb : MDb := fun _ => none

/-- Dict item assignment `self.database[target] = value`. -/
def dbSet (k : PyStr) (v : PyStr × List PyStr) (db : MDb) : MDb :=
  fun k' => if k' = k then some v else db k'

/-- MaintainersDatabase.get_status: status of the given board, with the
warnings the call appends. -/
def get_status (db : MDb) (target : PyStr) : PyStr × List PyStr :=
  match db target with
  | none => (pys "-", [pys "WARNING: no status info " ++ sq ++ target ++ sq])
  | some entry =>
    let tmp := entry.1
    if pyStartsWith tmp (pys "Maintained") then (pys "Active", [])
    else if pyStartsWith tmp (pys "Supported") then (pys "Active", [])
    else if pyStartsWith tmp (pys "Orphan") then (pys "Orphan", [])
    else (pys "-", [pys "WARNING: " ++ tmp ++ pys ": unknown status for " ++ sq ++ target ++ sq])

/-- Warning text appended by `get_maintainers` when it returns empty. -/
def warnNoMaint (target : PyStr) : PyStr :=
  pys "WARNING: no maintainers for " ++ sq ++ target ++ sq

/-- MaintainersDatabase.get_maintainers: colon-joined maintainers of the
given board, with the warnings the call appends. -/
def get_maintainers (db : MDb) (target : PyStr) : PyStr × List PyStr :=
  match db target with
  | some entry =>
    let status := entry.1
    let maint_list := entry.2
    if ¬ pyStartsWith status (pys "Orphan") ∧
        (maint_list.length > 1 ∨ (maint_list ≠ [] ∧ maint_list.headD [] ≠ pys "-")) then
      (List.intercalate (pys ":") maint_list, [])
    else (pys "", [warnNoMaint target])
  | none => (pys "", [warnNoMaint target])

/-!
### MaintainersDatabase.parse_file (boards.py lines 357-430)

Filesystem services used by the `F:` and `N:` tag handlers are oracles:
`globFn` is `glob.glob`, `walkConfigs` is the `(dirpath, filenames)` pairs
yielded by `os.walk(os.path.join(srcdir, 'configs'))`, and `reSearch` is
`re.search(pattern, string)` viewed as a boolean.  File lines are modelled
without their trailing newline, so the blank-line test `line == '\n'`
becomes a test for the empty line.
-/

/-- Ambient context of one `parse_file` call. -/
structure MCtx where
  srcdir : PyStr
  globFn : PyStr → List PyStr
  walkConfigs : List (PyStr × List PyStr)
  reSearch : PyStr → PyStr → Bool

/-- Parser state threaded through the line loop: the database plus the
per-record accumulators `targets`, `maintainers`, `status`. -/
structure MState where
  db : MDb
  targets : List PyStr
  maintainers : List PyStr
  status : PyStr

/-- Initial parser state over a given database. -/
def initMState (db : MDb) : MState := ⟨db, [], [], pys "-"⟩

/-- add_targets: bind every accumulated target to the current snapshot. -/
def dbBindAll (ts : List PyStr) (v : PyStr × List PyStr) (db : MDb) : MDb :=
  ts.foldl (fun d t => dbSet t v d) db

/-- Commented-maintainer fix-up plus tag split of lines 390-392: returns
`(tag, rest)` of the (possibly uncommented) line. -/
def tagRest (line : PyStr) : PyStr × PyStr :=
  let line := if line.take 3 = pys "#M:" then line.drop 1 else line
  (line.take 2, pystrip (line.drop 2))

/-- Targets contributed by one `F:` line (lines 396-405): glob-expand and
keep paths under `configs/` ending in `_defconfig`. -/
def fTargets (ctx : MCtx) (rest : PyStr) : List PyStr :=
  let glob_path := pathJoin ctx.srcdir rest
  (ctx.globFn glob_path).foldl
    (fun acc item =>
      let parts := pypartition item (pys "configs/")
      let front := if parts.1.getLast? = some '/' then parts.1.dropLast else parts.1
      if front = ctx.srcdir ∧ parts.2.1 ≠ [] then
        let parts2 := pyrpartition parts.2.2 (pys "_defconfig")
        if parts2.2.1 ≠ [] ∧ parts2.2.2 = [] then acc ++ [parts2.1] else acc
      else acc)
    []

/-- Targets contributed by one `N:` line (lines 408-424): scan the configs
directory and keep defconfig basenames matched by the regex reference. -/
def nTargets (ctx : MCtx) (rest : PyStr) : List PyStr :=
  ctx.walkConfigs.foldl
    (fun acc entry =>
      entry.2.foldl
        (fun acc2 cfg =>
          let path := (pathJoin entry.1 cfg).drop (ctx.srcdir.length + 1)
          let parts := pypartition path (pys "configs/")
          if parts.1 ≠ [] ∨ parts.2.1 = [] then acc2
          else
            let parts2 := pyrpartition parts.2.2 (pys "_defconfig")
            if parts2.2.1 ≠ [] ∧ parts2.2.2 = [] ∧ ctx.reSearch rest parts2.1 then
              acc2 ++ [parts2.1]
            else acc2)
        acc)
    []

/-- Effect of one non-blank line on the `targets` accumulator. -/
def stepTargets (ctx : MCtx) (line : PyStr) (ts : List PyStr) : List PyStr :=
  let tr := tagRest line
  if tr.1 = pys "F:" then ts ++ fTargets ctx tr.2
  else if tr.1 = pys "N:" then ts ++ nTargets ctx tr.2
  else ts

/-- Effect of one non-blank line on the `maintainers` accumulator. -/
def stepMaint (line : PyStr) (ms : List PyStr) : List PyStr :=
  let tr := tagRest line
  if tr.1 = pys "M:" then ms ++ [tr.2] else ms

/-- Effect of one non-blank line on the `status` accumulator. -/
def stepStatus (line : PyStr) (st : PyStr) : PyStr :=
  let tr := tagRest line
  if tr.1 = pys "S:" then tr.2 else st

/-- One iteration of the parse loop (lines 388-429).  The source dispatches
on `M:`/`F:`/`S:`/`N:` before the blank test; a blank line's two-character
prefix equals none of those tags, so dispatching on blankness first is the
same function.  A blank line runs `add_targets` and resets the record
accumulators. -/
def parseStep (ctx : MCtx) (st : MState) (line : PyStr) : MState :=
  if line = [] then
    ⟨dbBindAll st.targets (st.status, st.maintainers) st.db, [], [], pys "-"⟩
  else
    { st with
      targets := stepTargets ctx line st.targets
      maintainers := stepMaint line st.maintainers
      status := stepStatus line st.status }

/-- Folding the parse loop over all lines of the file. -/
def parseLines (ctx : MCtx) (st : MState) (lines : List PyStr) : MState :=
  lines.foldl (parseStep ctx) st

/-- MaintainersDatabase.parse_file: parse a MAINTAINERS file, returning the
updated database.  The final `add_targets(linenum)` call is modelled by the
closing `dbBindAll`; on an empty file the source raises `NameError`
(`linenum` is unbound), which `none` models. -/
def parse_file (ctx : MCtx) (db : MDb) (lines : List PyStr) : Option MDb :=
  if lines = [] then none
  else
    let st := parseLines ctx (initMState db) lines
    some (dbBindAll st.targets (st.status, st.maintainers) st.db)

/-- Targets accumulated by one blank-line-free record, processed from a
fresh record state. -/
def recTargets (ctx : MCtx) (rec : List PyStr) : List PyStr :=
  (parseLines ctx (initMState emptyDb) rec).targets

/-- Maintainer list accumulated by one blank-line-free record. -/
def recMaints (ctx : MCtx) (rec : List PyStr) : List PyStr :=
  (parseLines ctx (initMState emptyDb) rec).maintainers

/-- Status accumulated by one blank-line-free record. -/
def recStatus (ctx : MCtx) (rec : List PyStr) : PyStr :=
  (parseLines ctx (initMState emptyDb) rec).status

/-- An ownership file as a sequence of records separated by blank lines. -/
def joinRecs : List (List PyStr) → List PyStr
  | [] => []
  | [r] => r
  | r :: recs => r ++ [] :: joinRecs recs

/-- The parse of a full line list followed by the closing `add_targets`. -/
def bodyParse (ctx : MCtx) (db : MDb) (lines : List PyStr) : MDb :=
  let st := parseLines ctx (initMState db) lines
  dbBindAll st.targets (st.status, st.maintainers) st.db

/-- One record's contribution to the database. -/
def recBind (ctx : MCtx) (db : MDb) (rec : List PyStr) : MDb :=
  dbBindAll (recTargets ctx rec) (recStatus ctx rec, recMaints ctx rec) db

/-- Record-by-record view of a whole ownership file. -/
def recFold (ctx : MCtx) (db : MDb) (recs : List (List PyStr)) : MDb :=
  recs.foldl (recBind ctx) db

/-- Concrete parse context used to exercise `parse_file`: one fragment file
`configs/bar_defconfig` exists under the source root `.`. -/
def c8ctx : MCtx :=
  { srcdir := pys ".",
    globFn := fun p =>
      if p = pys "./configs/bar_defconfig" then [pys "./configs/bar_defconfig"] else [],
    walkConfigs := [],
    reSearch := fun _ _ => false }

/-- First ownership record binding target `bar` as Maintained by Alice. -/
def c8rec1 : List PyStr :=
  [pys "F: configs/bar_defconfig", pys "S: Maintained", pys "M: Alice"]

/-- Second ownership record rebinding target `bar` as Orphan with no
maintainers. -/
def c8rec2 : List PyStr :=
  [pys "F: configs/bar_defconfig", pys "S: Orphan"]

/-!
### Board records and Boards.read_boards (boards.py lines 448-472)

The `board` module is not part of the sources under review.  Its record
type is reconstructed from the specification.
-/

/-- Modelled from the spec: the board module's `Board` constructor is absent
from the sources; §6 gives the read-back record as the eight positional
fields `status, arch, cpu, soc, vendor, board, target, config` passed as
`Board(*fields)`. -/
structure Brd where
  status : PyStr
  arch : PyStr
  cpu : PyStr
  soc : PyStr
  vendor : PyStr
  board : PyStr
  target : PyStr
  config : PyStr
deriving DecidableEq

/-- One iteration of the `read_boards` line loop.  A line modelled as `[]`
is the file line `"\n"`, whose `line[0]` is not `'#'` and whose `split()`
is empty, so it is skipped like a comment. -/
def parseBoardLine (line : PyStr) : Option Brd :=
  match line with
  | [] => none
  | c :: _ =>
    if c = '#' then none
    else
      let fields := pysplit line
      if fields = [] then none
      else
        let fields := fields.map (fun f => if f = pys "-" then [] else f)
        let fields := fields ++ List.replicate (8 - fields.length) []
        let fields := fields.take 8
        some ⟨fields.getD 0 [], fields.getD 1 [], fields.getD 2 [], fields.getD 3 [],
              fields.getD 4 [], fields.getD 5 [], fields.getD 6 [], fields.getD 7 []⟩

/-- Boards.read_boards: build one `Brd` per non-comment, non-blank line of
the artifact. -/
def read_boards (lines : List PyStr) : List Brd :=
  lines.filterMap parseBoardLine

/-!
### Boards.insert_maintainers_info and Boards.format_and_output
(boards.py lines 762-821)
-/

/-- Full nine-field parameter record handled by the writer: the seven
scanner fields plus the merged `status` and `maintainers`. -/
structure BoardParams where
  status : PyStr
  arch : PyStr
  cpu : PyStr
  soc : PyStr
  vendor : PyStr
  board : PyStr
  target : PyStr
  config : PyStr
  maintainers : PyStr
deriving DecidableEq

/-- Merge step of lines 778-786 for one parameter record: attach
`maintainers` and `status`, returning the record plus the warnings the two
database queries append. -/
def insertOne (db : MDb) (p : BoardParams) : BoardParams × List PyStr :=
  let gm := get_maintainers db p.target
  if gm.1 ≠ [] then
    let gs := get_status db p.target
    ({ p with maintainers := gm.1, status := gs.1 }, gm.2 ++ gs.2)
  else ({ p with maintainers := gm.1, status := pys "-" }, gm.2)

/-- Boards.insert_maintainers_info over a parameter list: merged records
plus `sorted(database.warnings)`. -/
def insert_maintainers_info (db : MDb) (ps : List BoardParams) :
    List BoardParams × List PyStr :=
  let merged := ps.map (fun p => insertOne db p)
  (merged.map Prod.fst, pysortBy lexLe (merged.foldl (fun acc m => acc ++ m.2) []))

/-- Field order of the writer (line 800). -/
def fieldsList : List (BoardParams → PyStr) :=
  [BoardParams.status, BoardParams.arch, BoardParams.cpu, BoardParams.soc,
   BoardParams.vendor, BoardParams.board, BoardParams.target,
   BoardParams.config, BoardParams.maintainers]

/-- Column width of one field: maximum length over all records (lines 804-807). -/
def maxLen (ps : List BoardParams) (f : BoardParams → PyStr) : Nat :=
  ps.foldl (fun m p => max m (f p).length) 0

/-- One rendered line (lines 810-815): each field behind a two-space gutter,
left-justified to its column width, with the line stripped. -/
def formatLine (ps : List BoardParams) (p : BoardParams) : PyStr :=
  pystrip (fieldsList.foldl (fun line f => line ++ pys "  " ++ pyljust (f p) (maxLen ps f)) [])

/-- Lines of `COMMENT_BLOCK` (lines 27-33); `genPath` is the runtime
`__file__` interpolation. -/
def commentBlockLines (genPath : PyStr) : List PyStr :=
  [pys "#",
   pys "# List of boards",
   pys "#   Automatically generated by " ++ genPath ++ pys ": don" ++ sq ++ pys "t edit",
   pys "#",
   pys "# Status, Arch, CPU, SoC, Vendor, Board, Target, Config, Maintainers",
   pys ""]

/-- Boards.format_and_output, as the list of lines of the file it writes:
the comment block followed by the rendered record lines sorted
case-insensitively. -/
def format_and_output (genPath : PyStr) (ps : List BoardParams) : List PyStr :=
  commentBlockLines genPath ++ pysortBy lowerLe (ps.map (formatLine ps))

/-!
### Boards.select_boards (boards.py lines 524-662)

The `Board` objects handled here come from the absent `board` module; the
fields used by `select_boards` are reconstructed from the specification.
-/

/-- Modelled from the spec: a selectable board exposes its target name, a
property list probed by the expression matcher, and the mutable `build_it`
selection flag (§3 of the specification). -/
structure SBoard where
  target : PyStr
  props : List PyStr
  build_it : Bool
deriving DecidableEq

/-- Worker of `_build_terms`: the token stream is folded with the pending
`term` and `oper` state.  `none` models the `AttributeError` the source
raises when an AND marker precedes any expression. -/
def buildTermsAux : List PyStr → List Term → Option Term → Bool → Option (List Term)
  | [], acc, cur, _ =>
    some (acc ++ (match cur with | some t => [t] | none => []))
  | symb :: rest, acc, cur, oper =>
    if symb = [Char.ofNat 38] then buildTermsAux rest acc cur true
    else if oper then
      match cur with
      | none => none
      | some t => buildTermsAux rest acc (some (t.add_expr symb)) false
    else
      match cur with
      | none => buildTermsAux rest acc (some (Term.add_expr ⟨[]⟩ symb)) false
      | some t => buildTermsAux rest (acc ++ [t]) (some (Term.add_expr ⟨[]⟩ symb)) false

/-- Token list built by lines 548-556: each whitespace word of each argument
is split on the AND marker, keeping the markers as separator tokens. -/
def buildSyms (args : List PyStr) : List PyStr :=
  args.foldl
    (fun syms arg =>
      (pysplit arg).foldl
        (fun syms2 word =>
          let sym_build := (word.splitOn (Char.ofNat 38)).foldl
            (fun sb piece =>
              (if piece ≠ [] then sb ++ [piece] else sb) ++ [[Char.ofNat 38]])
            []
          syms2 ++ sym_build.dropLast)
        syms)
    []

/-- Boards._build_terms: convert command-line arguments to a list of terms. -/
def build_terms (args : List PyStr) : Option (List Term) :=
  buildTermsAux (buildSyms args) [] none false

/-- Result dictionary of `select_boards`, in insertion order. -/
abbrev SelResult := List (PyStr × List PyStr)

/-- Dict assignment `result[key] = []` style update. -/
def dictSet (k : PyStr) (v : List PyStr) : SelResult → SelResult
  | [] => [(k, v)]
  | (k', v') :: rest => if k' = k then (k, v) :: rest else (k', v') :: dictSet k v rest

/-- Append to the list held at a key; the source only appends to keys it
pre-initialized, so a missing key (a `KeyError` there) is left as the
identity here. -/
def dictAppend (k : PyStr) (x : PyStr) : SelResult → SelResult
  | [] => []
  | (k', v') :: rest => if k' = k then (k', v' ++ [x]) :: rest else (k', v') :: dictAppend k x rest

/-- Lookup in the result dictionary. -/
def dictGet (k : PyStr) : SelResult → List PyStr
  | [] => []
  | (k', v') :: rest => if k' = k then v' else dictGet k rest

/-- The `_check_board` decision and updates for one board: returns the board
(with its flag possibly set), the updated result dictionary and the updated
`found` list. -/
def check_board (rm : PyStr → PyStr → Bool) (terms : List Term) (brds : List PyStr)
    (exclude_list : List Expr) (brd : SBoard) (result : SelResult) (found : List PyStr) :
    SBoard × SelResult × List PyStr :=
  let pick : Option PyStr × Bool × List PyStr :=
    if terms ≠ [] then
      match terms.find? (fun t => Term.matchesB rm t brd.props) with
      | some t => (some (Term.str t), true, found)
      | none => (none, false, found)
    else if brds ≠ [] then
      if brd.target ∈ brds then (none, true, found ++ [brd.target])
      else (none, false, found)
    else (none, true, found)
  let matching_term := pick.1
  let found' := pick.2.2
  let build_it := pick.2.1 && ! exclude_list.any (fun e => Expr.matchesB rm e brd.props)
  if build_it then
    let result :=
      match matching_term with
      | some k => dictAppend k brd.target result
      | none => result
    ({ brd with build_it := true }, dictAppend (pys "all") brd.target result, found')
  else (brd, result, found')

/-- The net inclusion/exclusion decision `_check_board` reaches for one
board: the term / explicit-name / select-all inclusion, vetoed by any
matching exclusion expression. -/
def selDecision (rm : PyStr → PyStr → Bool) (terms : List Term) (brds : List PyStr)
    (exclude_list : List Expr) (brd : SBoard) : Bool :=
  (if terms ≠ [] then (terms.find? (fun t => Term.matchesB rm t brd.props)).isSome
   else if brds ≠ [] then brd.target ∈ brds
   else true)
  && ! exclude_list.any (fun e => Expr.matchesB rm e brd.props)

/-- One iteration of the board loop of `select_boards` (lines 654-655). -/
def selStep (rm : PyStr → PyStr → Bool) (terms : List Term) (brds : List PyStr)
    (exclude_list : List Expr) (acc : List SBoard × SelResult × List PyStr) (brd : SBoard) :
    List SBoard × SelResult × List PyStr :=
  let st := check_board rm terms brds exclude_list brd acc.2.1 acc.2.2
  (acc.1 ++ [st.1], st.2.1, st.2.2)

/-- Keep-first de-duplication standing for `set(brds)`; the iteration order
of a Python set is unspecified, first occurrence order is one refinement. -/
def dedupF : List PyStr → List PyStr
  | [] => []
  | x :: xs => x :: (dedupF xs).filter (fun y => y ≠ x)

/-- Boards.select_boards: mark boards selected based on args.  Returns the
updated board list, the provenance dictionary and the warnings; `none`
propagates a `_build_terms` failure. -/
def select_boards (rm : PyStr → PyStr → Bool) (args exclude brds : List PyStr)
    (boards : List SBoard) :
    Option (List SBoard × SelResult × List PyStr) :=
  match build_terms args with
  | none => none
  | some terms =>
    let result0 := terms.foldl (fun r t => dictSet (Term.str t) [] r) [(pys "all", [])]
    let exclude_list := exclude.map (fun e => (⟨e⟩ : Expr))
    let final := boards.foldl (selStep rm terms brds exclude_list) ([], result0, [])
    let warnings :=
      if brds ≠ [] then
        let remaining := (dedupF brds).filter (fun n => n ∉ final.2.2)
        if remaining ≠ [] then
          [pys "Boards not found: " ++ List.intercalate (pys ", ") remaining ++ [Char.ofNat 10]]
        else []
      else []
    some (final.1, final.2.1, warnings)

/-!
### output_is_new, content phase (boards.py lines 99-111)

The timestamp phase (lines 73-97) compares `os.path.getctime` results and
is operating-system state; the claim under verification preconditions it
away (the output exists and is newer than every defconfig, Kconfig and
MAINTAINERS file).  The content phase re-reads the output; `fexists` is the
`os.path.exists` oracle. -/

/-- Content phase of `output_is_new`: `some b` is a `return b`, `none` is
the `IndexError` raised by `line.split()[6]` on a short line. -/
def check_removed (fexists : PyStr → Bool) (config_dir : PyStr) : List PyStr → Option Bool
  | [] => some true
  | line :: rest =>
    if containsSub line (pys "Options,") then some false
    else
      match line with
      | [] => check_removed fexists config_dir rest
      | c :: _ =>
        if c = '#' then check_removed fexists config_dir rest
        else
          match (pysplit line).get? 6 with
          | none => none
          | some f =>
            if fexists (pathJoin config_dir (f ++ pys "_defconfig")) then
              check_removed fexists config_dir rest
            else some false

/-- Sentinel restoration performed by `read_boards`: a literal `-` field
comes back as the empty string. -/
def sentinelSub (f : PyStr) : PyStr := if f = pys "-" then [] else f

/-- The eight positional fields a written record reads back as, after
sentinel restoration. -/
def projBrd (p : BoardParams) : Brd :=
  ⟨sentinelSub p.status, sentinelSub p.arch, sentinelSub p.cpu, sentinelSub p.soc,
   sentinelSub p.vendor, sentinelSub p.board, sentinelSub p.target, sentinelSub p.config⟩

/-- Whether a string is free of `split()` whitespace. -/
def wsFree (s : PyStr) : Bool := s.all (fun c => ! pyIsSpace c)

/-- The eight positional fields of the artifact line format. -/
def fields8 : List (BoardParams → PyStr) :=
  [BoardParams.status, BoardParams.arch, BoardParams.cpu, BoardParams.soc,
   BoardParams.vendor, BoardParams.board, BoardParams.target, BoardParams.config]

/-- Field hygiene under which a written record survives the textual round
trip: every field is whitespace-free, the eight positional fields are
non-empty, and the line does not begin like a comment. -/
def goodParams (p : BoardParams) : Prop :=
  (∀ f ∈ fieldsList, wsFree (f p) = true) ∧
  (∀ f ∈ fields8, f p ≠ []) ∧
  p.status.head? ≠ some '#'

instance (p : BoardParams) : Decidable (goodParams p) := by
  unfold goodParams
  infer_instance

/-- Record exercising the empty-status corner of the writer: all fields
whitespace-free, but the first positional field empty. -/
def c6bad : BoardParams :=
  { status := [], arch := pys "arm", cpu := pys "c", soc := pys "s", vendor := pys "v",
    board := pys "b", target := pys "t", config := pys "cfg", maintainers := pys "m" }

/-- Hygienic sample record with a sentinel cpu field. -/
def c6rec1 : BoardParams :=
  { status := pys "Active", arch := pys "arm", cpu := pys "-", soc := pys "s",
    vendor := pys "v", board := pys "b", target := pys "t2", config := pys "cfg",
    maintainers := pys "m" }

/-- Hygienic sample record with an empty maintainers field. -/
def c6rec2 : BoardParams :=
  { status := pys "Orphan", arch := pys "riscv64", cpu := pys "c", soc := pys "s",
    vendor := pys "v", board := pys "b", target := pys "t1", config := pys "cfg",
    maintainers := [] }

/-- A line of the output file that the content phase actually examines:
non-blank and not a comment. -/
def activeLine : PyStr → Bool
  | [] => false
  | c :: _ => if c = '#' then false else true

/-!
## Theorems
-/

/-- Claim C7: architecture normalization is idempotent — applying the two
fix-up rules (arm+armv8 to aarch64; riscv to riscv32/riscv64 by the 32-bit
flag, defaulting to riscv64) to a record they have already been applied to
changes no field. -/
theorem C7_fixup_arch_idempotent (rv32 : PyStr) (p : ScanParams) :
    fixup_arch rv32 (fixup_arch rv32 p) = fixup_arch rv32 p := by
  unfold fixup_arch
  dsimp only
  split_ifs <;> first | rfl | (exfalso; simp_all [pys])

/-- Claim C10: when `get_maintainers` answers the empty string, the merge
step writes the status sentinel `-` without consulting `get_status`. -/
theorem C10_empty_maintainers_status_dash (db : MDb) (p : BoardParams)
    (h : (get_maintainers db p.target).1 = []) :
    (insertOne db p).1.status = pys "-" := by
  unfold insertOne
  simp [h]

/-- Witness for C10: a target whose ownership entry is `('Maintained', [])`
has no maintainers, so its merged status is `-` even though `get_status`
would answer `Active`. -/
theorem C10_witness :
    (get_maintainers (dbSet (pys "snow") (pys "Maintained", []) emptyDb) (pys "snow")).1 = [] ∧
    (insertOne (dbSet (pys "snow") (pys "Maintained", []) emptyDb)
        { status := [], arch := [], cpu := [], soc := [], vendor := [], board := [],
          target := pys "snow", config := [], maintainers := [] }).1.status = pys "-" ∧
    (get_status (dbSet (pys "snow") (pys "Maintained", []) emptyDb) (pys "snow")).1 = pys "Active" :=
  ⟨by decide,
   C10_empty_maintainers_status_dash _
     { status := [], arch := [], cpu := [], soc := [], vendor := [], board := [],
       target := pys "snow", config := [], maintainers := [] } (by decide),
   by decide⟩

/-- Counterexample to claim C3: a maintainer list consisting only of the
sentinel `-`, but with more than one element, is joined and returned with
no warning, because the source only special-cases the singleton sentinel
list (`len(maint_list) > 1` short-circuits the sentinel test). -/
theorem C3_counterexample :
    (∀ m ∈ [pys "-", pys "-"], m = pys "-") ∧
    get_maintainers (dbSet (pys "snow") (pys "Maintained", [pys "-", pys "-"]) emptyDb)
        (pys "snow") = (pys "-:-", []) ∧
    (get_maintainers (dbSet (pys "snow") (pys "Maintained", [pys "-", pys "-"]) emptyDb)
        (pys "snow")).1 ≠ pys "" := by
  refine ⟨by decide, by decide, by decide⟩

/-- Claim C3 (amended): `get_maintainers` returns the empty string and
appends a warning exactly when the target is absent, its status begins with
`Orphan`, or its maintainer list is empty or is the one-element sentinel
list `['-']`; in every other case it returns the colon-joined list with no
warning. -/
theorem C3_get_maintainers_characterization (db : MDb) (t : PyStr) :
    (get_maintainers db t = (pys "", [warnNoMaint t]) ↔
      db t = none ∨ ∃ st ml, db t = some (st, ml) ∧
        (pyStartsWith st (pys "Orphan") = true ∨ ml = [] ∨ ml = [pys "-"])) ∧
    (∀ st ml, db t = some (st, ml) → pyStartsWith st (pys "Orphan") = false →
      ml ≠ [] → ml ≠ [pys "-"] →
      get_maintainers db t = (List.intercalate (pys ":") ml, [])) := by
  constructor
  · cases hdb : db t with
    | none => simp [get_maintainers, hdb]
    | some entry =>
      obtain ⟨st, ml⟩ := entry
      simp only [get_maintainers, hdb]
      by_cases hc : ¬ pyStartsWith st (pys "Orphan") = true ∧
          (ml.length > 1 ∨ ml ≠ [] ∧ ml.headD [] ≠ pys "-")
      · rw [if_pos hc]
        constructor
        · intro h
          exact absurd (congrArg Prod.snd h) (by simp)
        · rintro (h | ⟨st', ml', heq, hcase⟩)
          · exact absurd h (by simp)
          · simp only [Option.some.injEq, Prod.mk.injEq] at heq
            obtain ⟨rfl, rfl⟩ := heq
            rcases hcase with hcs | hcs | hcs
            · exact absurd hcs hc.1
            · subst hcs
              rcases hc.2 with hlen | ⟨hne, _⟩
              · simp at hlen
              · exact absurd rfl hne
            · subst hcs
              rcases hc.2 with hlen | ⟨_, hhd⟩
              · simp at hlen
              · simp [pys] at hhd
      · rw [if_neg hc]
        refine ⟨fun _ => Or.inr ⟨st, ml, rfl, ?_⟩, fun _ => rfl⟩
        by_cases hA : pyStartsWith st (pys "Orphan") = true
        · exact Or.inl hA
        · have hB : ¬ (ml.length > 1 ∨ ml ≠ [] ∧ ml.headD [] ≠ pys "-") :=
            fun hb => hc ⟨hA, hb⟩
          push_neg at hB
          refine Or.inr ?_
          match ml, hB with
          | [], _ => exact Or.inl rfl
          | [m], ⟨_, h2⟩ =>
            have : m = pys "-" := by simpa using h2 (by simp)
            exact Or.inr (by rw [this])
          | m1 :: m2 :: rest, ⟨h1, _⟩ =>
            exfalso
            simp only [List.length_cons] at h1
            omega
  · intro st ml hdb ho h1 h2
    simp only [get_maintainers, hdb]
    rw [if_pos]
    refine ⟨by simp [ho], ?_⟩
    match ml, h1, h2 with
    | [m], _, h2 =>
      refine Or.inr ⟨by simp, ?_⟩
      simpa using fun hm => h2 (by rw [hm])
    | m1 :: m2 :: rest, _, _ => exact Or.inl (by simp)

/-- Witness for C3: a present, maintained target with one real maintainer
comes back colon-joined with no warning. -/
theorem C3_witness :
    get_maintainers (dbSet (pys "snow") (pys "Maintained", [pys "Alice"]) emptyDb) (pys "snow")
      = (List.intercalate (pys ":") [pys "Alice"], []) :=
  (C3_get_maintainers_characterization
      (dbSet (pys "snow") (pys "Maintained", [pys "Alice"]) emptyDb) (pys "snow")).2
    (pys "Maintained") [pys "Alice"] (by decide) (by decide) (by decide) (by decide)

/-- The architecture fix-ups never touch the target field. -/
theorem fixup_arch_target (rv32 : PyStr) (p : ScanParams) :
    (fixup_arch rv32 p).target = p.target := by
  unfold fixup_arch
  dsimp only
  split_ifs <;> rfl

/-- Characterization of the bounded first-occurrence scan. -/
theorem findSubAux_eq_some (s pat : PyStr) :
    ∀ (fuel i j : Nat), (findSubAux s pat i fuel = some j ↔
      i ≤ j ∧ j < i + fuel ∧ subAt s pat j = true ∧
        ∀ k, i ≤ k → k < j → subAt s pat k = false)
  | 0, i, j => by
    simp only [findSubAux]
    constructor
    · intro h
      exact absurd h (by simp)
    · rintro ⟨h1, h2, -⟩
      omega
  | fuel + 1, i, j => by
    simp only [findSubAux]
    by_cases hi : subAt s pat i = true
    · rw [if_pos hi]
      constructor
      · rintro h
        obtain rfl : i = j := by simpa using h
        exact ⟨le_refl i, by omega, hi, fun k hk1 hk2 => absurd (lt_of_le_of_lt hk1 hk2) (lt_irrefl i)⟩
      · rintro ⟨h1, h2, h3, h4⟩
        rcases Nat.eq_or_lt_of_le h1 with rfl | hlt
        · rfl
        · exact absurd hi (by simp [h4 i (le_refl i) hlt])
    · rw [if_neg hi]
      rw [findSubAux_eq_some s pat fuel (i + 1) j]
      constructor
      · rintro ⟨h1, h2, h3, h4⟩
        refine ⟨by omega, by omega, h3, fun k hk1 hk2 => ?_⟩
        rcases Nat.eq_or_lt_of_le hk1 with rfl | hlt
        · simpa using hi
        · exact h4 k hlt hk2
      · rintro ⟨h1, h2, h3, h4⟩
        have hij : i ≠ j := by
          rintro rfl
          exact hi h3
        exact ⟨by omega, by omega, h3, fun k hk1 hk2 => h4 k (by omega) hk2⟩

/-- The first-occurrence search succeeds exactly at the least index at which
the pattern occurs. -/
theorem findSub_eq_some (s pat : PyStr) (i : Nat) :
    findSub s pat = some i ↔
      i < s.length + 1 ∧ subAt s pat i = true ∧ ∀ k < i, subAt s pat k = false := by
  rw [findSub, findSubAux_eq_some]
  constructor
  · rintro ⟨-, h2, h3, h4⟩
    exact ⟨by omega, h3, fun k hk => h4 k (Nat.zero_le k) hk⟩
  · rintro ⟨h1, h2, h3⟩
    exact ⟨Nat.zero_le i, by omega, h2, fun k _ hk => h3 k hk⟩

/-- Counterexample to claim C9: the basename `x_defconfig_defconfig` ends in
`_defconfig`, yet `scan` fails, because `partition` splits at the first
occurrence of the suffix and the assertion requires the remainder after it
to be empty.  Per the claim, `scan` should succeed here with target
`x_defconfig`. -/
theorem C9_counterexample :
    pys "x_defconfig_defconfig" = pys "x_defconfig" ++ pys "_defconfig" ∧
    scan ⟨fun _ => [], [], []⟩ (pys "x_defconfig_defconfig") false = none := by
  refine ⟨by decide, by decide⟩

/-- Claim C9 (amended): `scan` succeeds exactly when the fragment basename
is `X ++ '_defconfig'` with no occurrence of `'_defconfig'` starting before
the final one; for every such basename the returned record's target equals
`X`, independent of evaluator output. -/
theorem C9_scan_characterization (env : ScanEnv) (path : PyStr) (wt : Bool) :
    ((scan env path wt).isSome = true ↔
      ∃ X, basename path = X ++ pys "_defconfig" ∧
        ∀ k < X.length, subAt (basename path) (pys "_defconfig") k = false) ∧
    (∀ X, basename path = X ++ pys "_defconfig" →
      (∀ k < X.length, subAt (basename path) (pys "_defconfig") k = false) →
      ∃ p w, scan env path wt = some (p, w) ∧ p.target = X) := by
  have main : ∀ X, basename path = X ++ pys "_defconfig" →
      (∀ k < X.length, subAt (basename path) (pys "_defconfig") k = false) →
      ∃ p w, scan env path wt = some (p, w) ∧ p.target = X := by
    intro X hX hmin
    have hsub : subAt (basename path) (pys "_defconfig") X.length = true := by
      unfold subAt
      rw [hX, List.drop_left, List.take_length]
      simp
    have hfind : findSub (basename path) (pys "_defconfig") = some X.length := by
      rw [findSub_eq_some]
      refine ⟨?_, hsub, hmin⟩
      have : (basename path).length = X.length + (pys "_defconfig").length := by
        rw [hX, List.length_append]
      omega
    have hpart : pypartition (basename path) (pys "_defconfig") =
        (X, pys "_defconfig", []) := by
      unfold pypartition
      rw [hfind]
      dsimp only
      rw [hX, List.take_left]
      have hnil : (X ++ pys "_defconfig").drop (X.length + (pys "_defconfig").length) = [] :=
        List.drop_eq_nil_of_le (by simp)
      rw [hnil]
    simp only [scan, hpart]
    rw [if_neg (by simp [pys])]
    exact ⟨_, _, rfl, fixup_arch_target env.rv32 _⟩
  refine ⟨?_, main⟩
  constructor
  · intro hsome
    unfold scan at hsome
    set parts := pypartition (basename path) (pys "_defconfig") with hparts
    by_cases hcond : parts.2.1 = [] ∨ parts.2.2 ≠ []
    · rw [if_pos hcond] at hsome
      simp at hsome
    · push_neg at hcond
      obtain ⟨hm, hr⟩ := hcond
      rcases hfs : findSub (basename path) (pys "_defconfig") with - | i
      · rw [pypartition, hfs] at hparts
        exact absurd (by rw [hparts]) hm
      · rw [pypartition, hfs] at hparts
        rw [findSub_eq_some] at hfs
        obtain ⟨hi, hat, hmin⟩ := hfs
        have hdropnil : (basename path).drop (i + (pys "_defconfig").length) = [] := by
          have := hr
          rw [hparts] at this
          simpa using this
        have hdrop : (basename path).drop i = pys "_defconfig" := by
          unfold subAt at hat
          have h2 : ((basename path).drop i).drop (pys "_defconfig").length = [] := by
            rw [List.drop_drop]
            exact hdropnil
          calc (basename path).drop i
              = ((basename path).drop i).take (pys "_defconfig").length ++
                ((basename path).drop i).drop (pys "_defconfig").length :=
                (List.take_append_drop _ _).symm
            _ = pys "_defconfig" := by rw [of_decide_eq_true hat, h2, List.append_nil]
        refine ⟨(basename path).take i, ?_, ?_⟩
        · conv_lhs => rw [← List.take_append_drop i (basename path)]
          rw [hdrop]
        · intro k hk
          apply hmin
          have hto : i ≤ (basename path).length := by
            by_contra hcon
            push_neg at hcon
            rw [List.drop_eq_nil_of_le (le_of_lt hcon)] at hdrop
            exact absurd hdrop.symm (by simp [pys])
          rw [List.length_take] at hk
          omega
  · rintro ⟨X, hX, hmin⟩
    obtain ⟨p, w, hscan, -⟩ := main X hX hmin
    rw [hscan]
    rfl

/-- Witness for C9: scanning `configs/snow_defconfig` succeeds with target
`snow`, for an arbitrary concrete evaluator environment. -/
theorem C9_witness :
    ∃ p w, scan ⟨fun _ => pys "armv8", [], []⟩ (pys "configs/snow_defconfig") true = some (p, w) ∧
      p.target = pys "snow" :=
  (C9_scan_characterization ⟨fun _ => pys "armv8", [], []⟩ (pys "configs/snow_defconfig") true).2
    (pys "snow") (by decide) (by decide)

/-- Claim C2: for an output file whose timestamp phase passed and that
contains no legacy `Options,` marker line, the content phase returns False
exactly when some non-comment, non-blank line's 7th whitespace-separated
field, with `_defconfig` appended, does not name an existing fragment file
under the configs directory.  The well-formedness hypothesis (every active
line has at least 7 fields, as in the artifact's 9-column layout) keeps the
source's `line.split()[6]` from raising `IndexError`. -/
theorem C2_output_is_new_content (fexists : PyStr → Bool) (config_dir : PyStr) :
    ∀ lines : List PyStr,
    (∀ l ∈ lines, containsSub l (pys "Options,") = false) →
    (∀ l ∈ lines, activeLine l = true → 7 ≤ (pysplit l).length) →
    (check_removed fexists config_dir lines = some false ↔
      ∃ l ∈ lines, activeLine l = true ∧ ∃ f, (pysplit l).get? 6 = some f ∧
        fexists (pathJoin config_dir (f ++ pys "_defconfig")) = false)
  | [], _, _ => by simp [check_removed]
  | line :: rest, hmark, hwf => by
    have hm0 : containsSub line (pys "Options,") = false := hmark line (by simp)
    have ih := C2_output_is_new_content fexists config_dir rest
      (fun l hl => hmark l (List.mem_cons_of_mem _ hl))
      (fun l hl => hwf l (List.mem_cons_of_mem _ hl))
    have skipStep : check_removed fexists config_dir rest = some false →
        activeLine line = false →
        ∃ l ∈ line :: rest, activeLine l = true ∧ ∃ f, (pysplit l).get? 6 = some f ∧
          fexists (pathJoin config_dir (f ++ pys "_defconfig")) = false := by
      intro h hact
      obtain ⟨l, hl, hp⟩ := ih.mp h
      exact ⟨l, List.mem_cons_of_mem _ hl, hp⟩
    have skipBack : activeLine line = false →
        (∃ l ∈ line :: rest, activeLine l = true ∧ ∃ f, (pysplit l).get? 6 = some f ∧
          fexists (pathJoin config_dir (f ++ pys "_defconfig")) = false) →
        check_removed fexists config_dir rest = some false := by
      intro hact h
      obtain ⟨l, hl, hp⟩ := h
      rcases List.mem_cons.mp hl with rfl | hl'
      · rw [hact] at hp
        exact absurd hp.1 (by simp)
      · exact ih.mpr ⟨l, hl', hp⟩
    cases line with
    | nil =>
      show check_removed fexists config_dir ([] :: rest) = some false ↔ _
      have hred : check_removed fexists config_dir ([] :: rest) =
          check_removed fexists config_dir rest := by
        simp [check_removed, hm0]
      rw [hred]
      exact ⟨fun h => skipStep h rfl, fun h => skipBack rfl h⟩
    | cons c cs =>
      by_cases hcm : c = '#'
      · subst hcm
        have hred : check_removed fexists config_dir (('#' :: cs) :: rest) =
            check_removed fexists config_dir rest := by
          simp [check_removed, hm0]
        rw [hred]
        have hact : activeLine ('#' :: cs) = false := by simp [activeLine]
        exact ⟨fun h => skipStep h hact, fun h => skipBack hact h⟩
      · have hact : activeLine (c :: cs) = true := by simp [activeLine, hcm]
        have hlen : 7 ≤ (pysplit (c :: cs)).length := hwf _ (by simp) hact
        obtain ⟨f, hg⟩ : ∃ f, (pysplit (c :: cs)).get? 6 = some f := by
          cases hg : (pysplit (c :: cs)).get? 6 with
          | none =>
            have := List.get?_eq_none.mp hg
            omega
          | some f => exact ⟨f, rfl⟩
        have hred : check_removed fexists config_dir ((c :: cs) :: rest) =
            if fexists (pathJoin config_dir (f ++ pys "_defconfig")) then
              check_removed fexists config_dir rest
            else some false := by
          simp only [check_removed]
          rw [if_neg (by simp [hm0]), if_neg hcm, hg]
        rw [hred]
        by_cases hfx : fexists (pathJoin config_dir (f ++ pys "_defconfig")) = true
        · rw [if_pos hfx, ih]
          constructor
          · rintro ⟨l, hl, hp⟩
            exact ⟨l, List.mem_cons_of_mem _ hl, hp⟩
          · rintro ⟨l, hl, hactl, f', hg', hfx'⟩
            rcases List.mem_cons.mp hl with rfl | hl'
            · rw [hg] at hg'
              obtain rfl : f' = f := by simpa using hg'.symm
              rw [hfx] at hfx'
              exact absurd hfx' (by simp)
            · exact ⟨l, hl', hactl, f', hg', hfx'⟩
        · rw [if_neg hfx]
          have hfx0 : fexists (pathJoin config_dir (f ++ pys "_defconfig")) = false := by
            simpa using hfx
          constructor
          · intro _
            exact ⟨c :: cs, by simp, hact, f, hg, hfx0⟩
          · intro _
            rfl

/-- Witness for C2: an artifact with one comment line and one well-formed
record line whose target (7th field) has no fragment on disk is reported
stale. -/
theorem C2_witness :
    (∀ l ∈ [pys "#   header", pys "A  arm  c  s  v  b  snow  cfg  m"],
      containsSub l (pys "Options,") = false) ∧
    (∀ l ∈ [pys "#   header", pys "A  arm  c  s  v  b  snow  cfg  m"],
      activeLine l = true → 7 ≤ (pysplit l).length) ∧
    (check_removed (fun _ => false) (pys "configs")
        [pys "#   header", pys "A  arm  c  s  v  b  snow  cfg  m"] = some false ↔
      ∃ l ∈ [pys "#   header", pys "A  arm  c  s  v  b  snow  cfg  m"],
        activeLine l = true ∧ ∃ f, (pysplit l).get? 6 = some f ∧
          (fun _ => false : PyStr → Bool) (pathJoin (pys "configs") (f ++ pys "_defconfig")) = false) :=
  ⟨by decide, by decide,
   C2_output_is_new_content (fun _ => false) (pys "configs")
     [pys "#   header", pys "A  arm  c  s  v  b  snow  cfg  m"] (by decide) (by decide)⟩

/-- The term-selection branch of the net decision. -/
theorem selDecision_terms (rm : PyStr → PyStr → Bool) (terms : List Term) (brds : List PyStr)
    (exclude_list : List Expr) (brd : SBoard) (ht : terms ≠ []) :
    selDecision rm terms brds exclude_list brd =
      ((terms.find? (fun t => Term.matchesB rm t brd.props)).isSome
        && ! exclude_list.any (fun e => Expr.matchesB rm e brd.props)) := by
  unfold selDecision
  rw [if_pos ht]

/-- The explicit-name branch of the net decision. -/
theorem selDecision_brds (rm : PyStr → PyStr → Bool) (terms : List Term) (brds : List PyStr)
    (exclude_list : List Expr) (brd : SBoard) (ht : terms = []) (hb : brds ≠ []) :
    selDecision rm terms brds exclude_list brd =
      (decide (brd.target ∈ brds)
        && ! exclude_list.any (fun e => Expr.matchesB rm e brd.props)) := by
  unfold selDecision
  rw [if_neg (by simp [ht]), if_pos hb]

/-- The select-all branch of the net decision. -/
theorem selDecision_all (rm : PyStr → PyStr → Bool) (terms : List Term) (brds : List PyStr)
    (exclude_list : List Expr) (brd : SBoard) (ht : terms = []) (hb : brds = []) :
    selDecision rm terms brds exclude_list brd =
      ! exclude_list.any (fun e => Expr.matchesB rm e brd.props) := by
  unfold selDecision
  rw [if_neg (by simp [ht]), if_neg (by simp [hb]), Bool.true_and]

/-- The board returned by `_check_board` is either flagged for building or
returned untouched, according to the net decision. -/
theorem check_board_board (rm : PyStr → PyStr → Bool) (terms : List Term) (brds : List PyStr)
    (exclude_list : List Expr) (brd : SBoard) (result : SelResult) (found : List PyStr) :
    (check_board rm terms brds exclude_list brd result found).1 =
      if selDecision rm terms brds exclude_list brd then { brd with build_it := true } else brd := by
  unfold check_board
  by_cases ht : terms ≠ []
  · rw [selDecision_terms rm terms brds exclude_list brd ht, if_pos ht]
    cases hf : terms.find? (fun t => Term.matchesB rm t brd.props) with
    | none => simp
    | some t =>
      cases ha : exclude_list.any (fun e => Expr.matchesB rm e brd.props) with
      | true => simp [ha]
      | false => simp [ha]
  · have ht' : terms = [] := by simpa using ht
    rw [if_neg ht]
    by_cases hb : brds ≠ []
    · rw [selDecision_brds rm terms brds exclude_list brd ht' hb, if_pos hb]
      by_cases hm : brd.target ∈ brds
      · rw [if_pos hm]
        cases ha : exclude_list.any (fun e => Expr.matchesB rm e brd.props) with
        | true => simp [ha, hm]
        | false => simp [ha, hm]
      · rw [if_neg hm]
        simp [hm]
    · have hb' : brds = [] := by simpa using hb
      rw [selDecision_all rm terms brds exclude_list brd ht' hb', if_neg hb]
      cases ha : exclude_list.any (fun e => Expr.matchesB rm e brd.props) with
      | true => simp [ha]
      | false => simp [ha]

/-- A negative decision leaves the result dictionary untouched. -/
theorem check_board_result_of_neg (rm : PyStr → PyStr → Bool) (terms : List Term)
    (brds : List PyStr) (exclude_list : List Expr) (brd : SBoard) (result : SelResult)
    (found : List PyStr)
    (h : selDecision rm terms brds exclude_list brd = false) :
    (check_board rm terms brds exclude_list brd result found).2.1 = result := by
  unfold check_board
  by_cases ht : terms ≠ []
  · rw [selDecision_terms rm terms brds exclude_list brd ht] at h
    rw [if_pos ht]
    cases hf : terms.find? (fun t => Term.matchesB rm t brd.props) with
    | none => simp
    | some t =>
      rw [hf] at h
      cases ha : exclude_list.any (fun e => Expr.matchesB rm e brd.props) with
      | true => simp [ha]
      | false =>
        rw [ha] at h
        simp at h
  · have ht' : terms = [] := by simpa using ht
    rw [if_neg ht]
    by_cases hb : brds ≠ []
    · rw [selDecision_brds rm terms brds exclude_list brd ht' hb] at h
      rw [if_pos hb]
      by_cases hm : brd.target ∈ brds
      · rw [if_pos hm]
        cases ha : exclude_list.any (fun e => Expr.matchesB rm e brd.props) with
        | true => simp [ha]
        | false =>
          rw [ha] at h
          simp [hm] at h
      · rw [if_neg hm]
        simp
    · have hb' : brds = [] := by simpa using hb
      rw [selDecision_all rm terms brds exclude_list brd ht' hb'] at h
      rw [if_neg hb]
      cases ha : exclude_list.any (fun e => Expr.matchesB rm e brd.props) with
      | true => simp [ha]
      | false =>
        rw [ha] at h
        simp at h

/-- With terms supplied, a first match `t` and no matching exclusion, the
result dictionary gains the target under the first matching term and under
`all`. -/
theorem check_board_result_term (rm : PyStr → PyStr → Bool) (terms : List Term)
    (brds : List PyStr) (exclude_list : List Expr) (brd : SBoard) (result : SelResult)
    (found : List PyStr) (t : Term) (ht : terms ≠ [])
    (hf : terms.find? (fun t => Term.matchesB rm t brd.props) = some t)
    (ha : exclude_list.any (fun e => Expr.matchesB rm e brd.props) = false) :
    check_board rm terms brds exclude_list brd result found =
      ({ brd with build_it := true },
       dictAppend (pys "all") brd.target (dictAppend (Term.str t) brd.target result),
       found) := by
  unfold check_board
  rw [if_pos ht, hf]
  simp [ha]

/-- With no terms supplied and a positive decision, the result dictionary
gains the target under `all` only. -/
theorem check_board_result_noterm (rm : PyStr → PyStr → Bool) (terms : List Term)
    (brds : List PyStr) (exclude_list : List Expr) (brd : SBoard) (result : SelResult)
    (found : List PyStr) (ht : terms = [])
    (hd : selDecision rm terms brds exclude_list brd = true) :
    (check_board rm terms brds exclude_list brd result found).2.1 =
      dictAppend (pys "all") brd.target result := by
  unfold check_board
  rw [if_neg (show ¬ (terms ≠ []) from by simp [ht])]
  by_cases hb : brds ≠ []
  · rw [selDecision_brds rm terms brds exclude_list brd ht hb] at hd
    rw [if_pos hb]
    rw [Bool.and_eq_true] at hd
    have hm : brd.target ∈ brds := by simpa using hd.1
    have ha : exclude_list.any (fun e => Expr.matchesB rm e brd.props) = false := by
      simpa using hd.2
    rw [if_pos hm]
    simp [ha]
  · have hb' : brds = [] := by simpa using hb
    rw [selDecision_all rm terms brds exclude_list brd ht hb'] at hd
    have ha : exclude_list.any (fun e => Expr.matchesB rm e brd.props) = false := by
      simpa using hd
    rw [if_neg hb]
    simp [ha]

/-- Membership in any bucket after a `dictAppend` comes from the original
dictionary or is the appended element. -/
theorem dictGet_mem_of_dictAppend (k2 y : PyStr) (x : PyStr) :
    ∀ (r : SelResult) (kv : PyStr × List PyStr),
      kv ∈ dictAppend k2 y r → x ∈ kv.2 → (∃ kv0 ∈ r, x ∈ kv0.2) ∨ x = y
  | [], kv, hkv, _ => absurd hkv (by simp [dictAppend])
  | (k0, v0) :: rest, kv, hkv, hx => by
    unfold dictAppend at hkv
    by_cases hk : k0 = k2
    · rw [if_pos hk] at hkv
      rcases List.mem_cons.mp hkv with heq | htail
      · subst heq
        rcases List.mem_append.mp hx with hv | hy
        · exact Or.inl ⟨(k0, v0), by simp, hv⟩
        · exact Or.inr (by simpa using hy)
      · exact Or.inl ⟨kv, List.mem_cons_of_mem _ htail, hx⟩
    · rw [if_neg hk] at hkv
      rcases List.mem_cons.mp hkv with heq | htail
      · subst heq
        exact Or.inl ⟨(k0, v0), by simp, hx⟩
      · rcases dictGet_mem_of_dictAppend k2 y x rest kv htail hx with ⟨kv0, h0, h1⟩ | he
        · exact Or.inl ⟨kv0, List.mem_cons_of_mem _ h0, h1⟩
        · exact Or.inr he

/-- Membership in any bucket after `_check_board` comes from the original
dictionary or is the target of a board with a positive decision. -/
theorem check_board_bucket_mem (rm : PyStr → PyStr → Bool) (terms : List Term)
    (brds : List PyStr) (exclude_list : List Expr) (brd : SBoard) (result : SelResult)
    (found : List PyStr) (kv : PyStr × List PyStr) (x : PyStr)
    (hkv : kv ∈ (check_board rm terms brds exclude_list brd result found).2.1)
    (hx : x ∈ kv.2) :
    (∃ kv0 ∈ result, x ∈ kv0.2) ∨
      (selDecision rm terms brds exclude_list brd = true ∧ x = brd.target) := by
  by_cases hd : selDecision rm terms brds exclude_list brd = true
  · by_cases ht : terms ≠ []
    · have hd2 := hd
      rw [selDecision_terms rm terms brds exclude_list brd ht, Bool.and_eq_true] at hd2
      obtain ⟨hf0, ha0⟩ := hd2
      rcases hf : terms.find? (fun t => Term.matchesB rm t brd.props) with - | t
      · rw [hf] at hf0
        exact absurd hf0 (by simp)
      · have ha : exclude_list.any (fun e => Expr.matchesB rm e brd.props) = false := by
          simpa using ha0
        rw [check_board_result_term rm terms brds exclude_list brd result found t ht hf ha] at hkv
        rcases dictGet_mem_of_dictAppend (pys "all") brd.target x _ kv hkv hx with ⟨kv0, h0, h1⟩ | he
        · rcases dictGet_mem_of_dictAppend (Term.str t) brd.target x result kv0 h0 h1 with hin | he2
          · exact Or.inl hin
          · exact Or.inr ⟨hd, he2⟩
        · exact Or.inr ⟨hd, he⟩
    · have ht' : terms = [] := by simpa using ht
      rw [check_board_result_noterm rm terms brds exclude_list brd result found ht' hd] at hkv
      rcases dictGet_mem_of_dictAppend (pys "all") brd.target x result kv hkv hx with hin | he
      · exact Or.inl hin
      · exact Or.inr ⟨hd, he⟩
  · have hd2 : selDecision rm terms brds exclude_list brd = false := by
      simpa using hd
    rw [check_board_result_of_neg rm terms brds exclude_list brd result found hd2] at hkv
    exact Or.inl ⟨kv, hkv, hx⟩

/-- Boards component of the selection fold: each board is appended with its
flag decided by `selDecision`. -/
theorem selFold_boards (rm : PyStr → PyStr → Bool) (terms : List Term) (brds : List PyStr)
    (exclude_list : List Expr) :
    ∀ (boards : List SBoard) (acc : List SBoard × SelResult × List PyStr),
      (boards.foldl (selStep rm terms brds exclude_list) acc).1 =
        acc.1 ++ boards.map (fun b =>
          if selDecision rm terms brds exclude_list b then { b with build_it := true } else b)
  | [], acc => by simp
  | brd :: rest, acc => by
    rw [List.foldl_cons, selFold_boards rm terms brds exclude_list rest]
    simp only [selStep, check_board_board, List.map_cons]
    rw [List.append_assoc]
    rfl

/-- Bucket membership after the whole selection fold: every recorded name
is the target of some processed board with a positive decision, unless it
was already in the accumulator. -/
theorem selFold_bucket_mem (rm : PyStr → PyStr → Bool) (terms : List Term) (brds : List PyStr)
    (exclude_list : List Expr) :
    ∀ (boards : List SBoard) (acc : List SBoard × SelResult × List PyStr)
      (kv : PyStr × List PyStr) (x : PyStr),
      kv ∈ (boards.foldl (selStep rm terms brds exclude_list) acc).2.1 → x ∈ kv.2 →
      (∃ kv0 ∈ acc.2.1, x ∈ kv0.2) ∨
        ∃ b ∈ boards, selDecision rm terms brds exclude_list b = true ∧ x = b.target
  | [], acc, kv, x, hkv, hx => Or.inl ⟨kv, hkv, hx⟩
  | brd :: rest, acc, kv, x, hkv, hx => by
    rw [List.foldl_cons] at hkv
    rcases selFold_bucket_mem rm terms brds exclude_list rest _ kv x hkv hx with hin | ⟨b, hb, hbd⟩
    · obtain ⟨kv0, h0, h1⟩ := hin
      rcases check_board_bucket_mem rm terms brds exclude_list brd acc.2.1 acc.2.2 kv0 x h0 h1
        with hin' | ⟨hd, he⟩
      · exact Or.inl hin'
      · exact Or.inr ⟨brd, by simp, hd, he⟩
    · exact Or.inr ⟨b, List.mem_cons_of_mem _ hb, hbd⟩

/-- Every name in a bucket of the result belongs to some entry. -/
theorem dictGet_subset (k : PyStr) :
    ∀ (r : SelResult) (x : PyStr), x ∈ dictGet k r → ∃ kv ∈ r, x ∈ kv.2
  | [], x, hx => absurd hx (by simp [dictGet])
  | (k0, v0) :: rest, x, hx => by
    unfold dictGet at hx
    by_cases hk : k0 = k
    · rw [if_pos hk] at hx
      exact ⟨(k0, v0), by simp, hx⟩
    · rw [if_neg hk] at hx
      obtain ⟨kv, h0, h1⟩ := dictGet_subset k rest x hx
      exact ⟨kv, List.mem_cons_of_mem _ h0, h1⟩

/-- Members of a `dictSet` update are the new pair or original entries. -/
theorem dictSet_mem (k : PyStr) (v : List PyStr) :
    ∀ (r : SelResult) (kv : PyStr × List PyStr),
      kv ∈ dictSet k v r → kv = (k, v) ∨ kv ∈ r
  | [], kv, hkv => by simpa [dictSet] using hkv
  | (k0, v0) :: rest, kv, hkv => by
    unfold dictSet at hkv
    by_cases hk : k0 = k
    · rw [if_pos hk] at hkv
      rcases List.mem_cons.mp hkv with rfl | htail
      · exact Or.inl rfl
      · exact Or.inr (List.mem_cons_of_mem _ htail)
    · rw [if_neg hk] at hkv
      rcases List.mem_cons.mp hkv with rfl | htail
      · exact Or.inr (by simp)
      · rcases dictSet_mem k v rest kv htail with h | h
        · exact Or.inl h
        · exact Or.inr (List.mem_cons_of_mem _ h)

/-- Every bucket of the initial result dictionary of `select_boards` is
empty. -/
theorem result0_buckets_empty (terms : List Term) :
    ∀ (init : SelResult), (∀ kv ∈ init, kv.2 = []) →
      ∀ kv ∈ terms.foldl (fun r t => dictSet (Term.str t) [] r) init, kv.2 = ([] : List PyStr) := by
  induction terms with
  | nil => intro init hinit kv hkv; exact hinit kv hkv
  | cons t rest ih =>
    intro init hinit kv hkv
    rw [List.foldl_cons] at hkv
    refine ih (dictSet (Term.str t) [] init) ?_ kv hkv
    intro kv0 h0
    rcases dictSet_mem (Term.str t) [] init kv0 h0 with rfl | h
    · rfl
    · exact hinit kv0 h

/-- Claim C1 evaluated at the failing input: with a non-empty terms list
`['arm']` and a non-empty explicit name list `['bbb']`, the board `bbb`
(whose properties match no term) is not selected — its flag stays false and
`result['all']` is empty — and it is reported in the `Boards not found`
warning.  The docstring of `select_boards` (lines 577-580) promises the two
paths are additive, but the `elif brds:` at line 621 never runs when terms
are supplied. -/
theorem C1_terms_and_brds_not_additive :
    select_boards litMatch [pys "arm"] [] [pys "bbb"]
        [⟨pys "bbb", [pys "bbb", pys "sandbox"], false⟩] =
      some ([⟨pys "bbb", [pys "bbb", pys "sandbox"], false⟩],
            [(pys "all", []), (pys "arm", [])],
            [pys "Boards not found: bbb" ++ [Char.ofNat 10]]) := by
  rfl

/-- Claim C4: exclusion always overrides inclusion — a board matching an
exclusion expression is returned unchanged (its `build_it` flag is not set)
and its target is absent from `result['all']`, whatever the inclusion path.
Target uniqueness across the board list (an invariant of the data model)
rules out a namesake selected board. -/
theorem C4_exclusion_overrides (rm : PyStr → PyStr → Bool) (args exclude brds : List PyStr)
    (boards : List SBoard) (out : List SBoard × SelResult × List PyStr)
    (hout : select_boards rm args exclude brds boards = some out)
    (hnd : (boards.map SBoard.target).Nodup)
    (i : Nat) (brd : SBoard) (hi : boards.get? i = some brd)
    (hex : ∃ e ∈ exclude, Expr.matchesB rm ⟨e⟩ brd.props = true) :
    out.1.get? i = some brd ∧ brd.target ∉ dictGet (pys "all") out.2.1 := by
  unfold select_boards at hout
  cases hbt : build_terms args with
  | none =>
    rw [hbt] at hout
    exact absurd hout (by simp)
  | some terms =>
    rw [hbt] at hout
    simp only [Option.some.injEq] at hout
    subst hout
    set exclude_list := exclude.map (fun e => (⟨e⟩ : Expr)) with hexl
    have hany : exclude_list.any (fun e => Expr.matchesB rm e brd.props) = true := by
      obtain ⟨e, he, hm⟩ := hex
      exact List.any_eq_true.mpr ⟨⟨e⟩, List.mem_map_of_mem _ he, hm⟩
    have hdF : selDecision rm terms brds exclude_list brd = false := by
      unfold selDecision
      rw [hany]
      simp
    constructor
    · rw [selFold_boards rm terms brds exclude_list boards]
      rw [List.nil_append, List.get?_map, hi]
      simp [hdF]
    · intro hmem
      obtain ⟨kv, hkv, hx⟩ := dictGet_subset (pys "all") _ brd.target hmem
      rcases selFold_bucket_mem rm terms brds exclude_list boards _ kv brd.target hkv hx with
        hin | ⟨b, hbmem, hbd, heqt⟩
      · obtain ⟨kv0, h0, h1⟩ := hin
        have : kv0.2 = [] := result0_buckets_empty terms [(pys "all", [])] (by simp) kv0 h0
        rw [this] at h1
        exact absurd h1 (by simp)
      · have hbrdmem : brd ∈ boards := List.get?_mem hi
        have : b = brd :=
          List.inj_on_of_nodup_map hnd hbmem hbrdmem heqt.symm
        subst this
        rw [hbd] at hdF
        exact absurd hdF (by simp)

/-- Witness for C4: board `bbb` with property `arm` is included by the term
`arm` but matches the exclusion pattern `ar`; it comes back unflagged and
absent from `result['all']`. -/
theorem C4_witness :
    select_boards litMatch [pys "arm"] [pys "ar"] [] [⟨pys "bbb", [pys "arm"], false⟩] =
        some ([⟨pys "bbb", [pys "arm"], false⟩], [(pys "all", []), (pys "arm", [])], []) ∧
    (([⟨pys "bbb", [pys "arm"], false⟩] : List SBoard).map SBoard.target).Nodup ∧
    (∃ e ∈ [pys "ar"],
      Expr.matchesB litMatch ⟨e⟩ (SBoard.props ⟨pys "bbb", [pys "arm"], false⟩) = true) ∧
    (([⟨pys "bbb", [pys "arm"], false⟩] : List SBoard).get? 0 =
        some ⟨pys "bbb", [pys "arm"], false⟩ ∧
      SBoard.target ⟨pys "bbb", [pys "arm"], false⟩ ∉
        dictGet (pys "all") [(pys "all", []), (pys "arm", [])]) :=
  ⟨by rfl, by decide, by decide,
   C4_exclusion_overrides litMatch [pys "arm"] [pys "ar"] [] [⟨pys "bbb", [pys "arm"], false⟩]
     ([⟨pys "bbb", [pys "arm"], false⟩], [(pys "all", []), (pys "arm", [])], [])
     (by rfl) (by decide) 0 ⟨pys "bbb", [pys "arm"], false⟩ (by decide) (by decide)⟩

/-- Claim C5: a Term matches iff every one of its expressions matches at
least one board property (AND within a Term), and when several terms match
a board, `_check_board` records provenance only under the canonical string
of the first matching term (first-match-wins), the other bucket touched
being `all`. -/
theorem C5_and_within_first_match_wins (rm : PyStr → PyStr → Bool) :
    (∀ (t : Term) (props : List PyStr),
      Term.matchesB rm t props = true ↔
        ∀ e ∈ t.expr_list, ∃ p ∈ props, rm e.expr p = true) ∧
    (∀ (pre post : List Term) (t : Term) (brds : List PyStr) (exclude_list : List Expr)
      (brd : SBoard) (result : SelResult) (found : List PyStr),
      (∀ t2 ∈ pre, Term.matchesB rm t2 brd.props = false) →
      Term.matchesB rm t brd.props = true →
      exclude_list.any (fun e => Expr.matchesB rm e brd.props) = false →
      check_board rm (pre ++ t :: post) brds exclude_list brd result found =
        ({ brd with build_it := true },
         dictAppend (pys "all") brd.target (dictAppend (Term.str t) brd.target result),
         found)) := by
  constructor
  · intro t props
    simp [Term.matchesB, Expr.matchesB, List.all_eq_true, List.any_eq_true]
  · intro pre post t brds exclude_list brd result found hpre hmatch ha
    have hfind : (pre ++ t :: post).find? (fun t2 => Term.matchesB rm t2 brd.props) = some t := by
      rw [List.find?_append]
      have h1 : pre.find? (fun t2 => Term.matchesB rm t2 brd.props) = none :=
        List.find?_eq_none.mpr (fun t2 ht2 => by simp [hpre t2 ht2])
      have h2 : (t :: post).find? (fun t2 => Term.matchesB rm t2 brd.props) = some t :=
        List.find?_cons_of_pos post (by simpa using hmatch)
      rw [h1, h2]
      rfl
    exact check_board_result_term rm (pre ++ t :: post) brds exclude_list brd result found t
      (by simp) hfind ha

/-- Witness for C5: with terms `armA` and `armB` and a board whose
properties match both, provenance is recorded under `armA` only. -/
theorem C5_witness :
    ((∀ t2 ∈ ([] : List Term), Term.matchesB litMatch t2 [pys "armA1", pys "armB2"] = false) ∧
      Term.matchesB litMatch ⟨[⟨pys "armA"⟩]⟩ [pys "armA1", pys "armB2"] = true ∧
      ([] : List Expr).any
        (fun e => Expr.matchesB litMatch e [pys "armA1", pys "armB2"]) = false) ∧
    check_board litMatch ([] ++ ⟨[⟨pys "armA"⟩]⟩ :: [(⟨[⟨pys "armB"⟩]⟩ : Term)]) [] []
        ⟨pys "tt", [pys "armA1", pys "armB2"], false⟩
        [(pys "all", []), (pys "armA", []), (pys "armB", [])] [] =
      ({ target := pys "tt", props := [pys "armA1", pys "armB2"], build_it := true },
       dictAppend (pys "all") (pys "tt")
         (dictAppend (Term.str ⟨[⟨pys "armA"⟩]⟩) (pys "tt")
           [(pys "all", []), (pys "armA", []), (pys "armB", [])]),
       []) :=
  ⟨⟨by decide, by decide, by decide⟩,
   (C5_and_within_first_match_wins litMatch).2 [] [⟨[⟨pys "armB"⟩]⟩] ⟨[⟨pys "armA"⟩]⟩ [] []
     ⟨pys "tt", [pys "armA1", pys "armB2"], false⟩
     [(pys "all", []), (pys "armA", []), (pys "armB", [])] []
     (by decide) (by decide) (by decide)⟩

/-- Splitting a whitespace-free word accumulates it in the current-word
buffer. -/
theorem pysplitAux_word (w : PyStr) (hw : ∀ c ∈ w, pyIsSpace c = false) :
    ∀ (s cur : PyStr), pysplitAux (w ++ s) cur = pysplitAux s (w.reverse ++ cur) := by
  induction w with
  | nil => intro s cur; simp
  | cons c w2 ih =>
    intro s cur
    have hc : pyIsSpace c = false := hw c (by simp)
    show pysplitAux (c :: (w2 ++ s)) cur = _
    simp only [pysplitAux]
    rw [if_neg (by simp [hc])]
    rw [ih (fun c2 h2 => hw c2 (by simp [h2])) s (c :: cur)]
    simp

/-- Splitting an all-whitespace string flushes the current-word buffer. -/
theorem pysplitAux_allws (b : PyStr) (hb : ∀ c ∈ b, pyIsSpace c = true) :
    ∀ cur, pysplitAux b cur = if cur = [] then [] else [cur.reverse] := by
  induction b with
  | nil => intro cur; rfl
  | cons c b2 ih =>
    intro cur
    simp only [pysplitAux]
    rw [if_pos (by simp [hb c (by simp)])]
    have ihe := ih (fun c2 h2 => hb c2 (by simp [h2])) []
    by_cases hcur : cur = []
    · rw [if_pos hcur, ihe, if_pos hcur]
      rfl
    · rw [if_neg hcur, ihe, if_neg hcur]
      rfl

/-- A whitespace prefix is ignored by `split()`. -/
theorem pysplit_ws_lead (a : PyStr) (ha : ∀ c ∈ a, pyIsSpace c = true) :
    ∀ s, pysplit (a ++ s) = pysplit s := by
  induction a with
  | nil => intro s; rfl
  | cons c a2 ih =>
    intro s
    show pysplitAux (c :: (a2 ++ s)) [] = _
    simp only [pysplitAux]
    rw [if_pos (by simp [ha c (by simp)])]
    simp only [if_true]
    exact ih (fun c2 h2 => ha c2 (by simp [h2])) s

/-- A whitespace suffix is ignored by `split()`. -/
theorem pysplitAux_ws_suffix (b : PyStr) (hb : ∀ c ∈ b, pyIsSpace c = true) :
    ∀ (s cur : PyStr), pysplitAux (s ++ b) cur = pysplitAux s cur := by
  intro s
  induction s with
  | nil =>
    intro cur
    rw [List.nil_append, pysplitAux_allws b hb cur]
    rfl
  | cons c s2 ih =>
    intro cur
    show pysplitAux (c :: (s2 ++ b)) cur = pysplitAux (c :: s2) cur
    simp only [pysplitAux]
    by_cases hc : pyIsSpace c
    · rw [if_pos hc, if_pos hc]
      by_cases hcur : cur = []
      · rw [if_pos hcur, if_pos hcur, ih []]
      · rw [if_neg hcur, if_neg hcur, ih []]
    · rw [if_neg hc, if_neg hc, ih (c :: cur)]

/-- Stripping does not change the fields of `split()`. -/
theorem pysplit_strip (s : PyStr) : pysplit (pystrip s) = pysplit s := by
  unfold pystrip
  set s1 := s.dropWhile pyIsSpace with hs1
  have h1 : pysplit s = pysplit s1 := by
    conv_lhs => rw [← List.takeWhile_append_dropWhile pyIsSpace s]
    exact pysplit_ws_lead _ (fun c hc => List.mem_takeWhile_imp hc) _
  have hdec : s1 = (s1.reverse.dropWhile pyIsSpace).reverse ++
      (s1.reverse.takeWhile pyIsSpace).reverse := by
    conv_lhs => rw [← List.reverse_reverse s1,
      ← List.takeWhile_append_dropWhile pyIsSpace s1.reverse]
    rw [List.reverse_append]
  have h2 : pysplit s1 = pysplit (s1.reverse.dropWhile pyIsSpace).reverse := by
    conv_lhs => rw [hdec]
    exact pysplitAux_ws_suffix _
      (fun c hc => List.mem_takeWhile_imp (List.mem_reverse.mp hc)) _ []
  rw [h1, h2]

/-- Splitting a non-empty whitespace-free word followed by nothing or by
whitespace isolates the word as the first field. -/
theorem pysplit_word_cons (w s : PyStr) (hw : ∀ c ∈ w, pyIsSpace c = false) (hnw : w ≠ [])
    (hs : s = [] ∨ ∃ c s2, s = c :: s2 ∧ pyIsSpace c = true) :
    pysplit (w ++ s) = w :: pysplit s := by
  have h0 : pysplit (w ++ s) = pysplitAux s w.reverse := by
    show pysplitAux (w ++ s) [] = _
    rw [pysplitAux_word w hw s [], List.append_nil]
  rw [h0]
  rcases hs with rfl | ⟨c, s2, rfl, hc⟩
  · show (if w.reverse = [] then [] else [w.reverse.reverse]) = w :: pysplit []
    rw [if_neg (by simpa using hnw), List.reverse_reverse]
    rfl
  · show pysplitAux (c :: s2) w.reverse = _
    simp only [pysplitAux]
    rw [if_pos (by simp [hc]), if_neg (by simpa using hnw), List.reverse_reverse]
    have : pysplit (c :: s2) = pysplit s2 := by
      show pysplitAux (c :: s2) [] = _
      simp only [pysplitAux]
      rw [if_pos (by simp [hc])]
      simp only [if_true]
      rfl
    rw [this]
    rfl

/-- A left fold that appends a gutter and a rendered field per element is
the flattening of the chunk list. -/
theorem foldl_append_chunks {α : Type} (g1 g2 : α → PyStr) :
    ∀ (fs : List α) (init : PyStr),
      fs.foldl (fun line f => line ++ g1 f ++ g2 f) init
        = init ++ (fs.map (fun f => g1 f ++ g2 f)).flatten
  | [], init => by simp
  | f :: fs, init => by
    rw [List.foldl_cons, foldl_append_chunks g1 g2 fs (init ++ g1 f ++ g2 f)]
    simp [List.append_assoc]

/-- The flattening of a gutter-led chunk list is empty or starts with a
space. -/
theorem chunk_flatten_head (chunks : List (PyStr × PyStr)) :
    (chunks.map (fun wp => pys "  " ++ (wp.1 ++ wp.2))).flatten = [] ∨
    ∃ s2, (chunks.map (fun wp => pys "  " ++ (wp.1 ++ wp.2))).flatten = ' ' :: s2 ∧
      pyIsSpace ' ' = true := by
  cases chunks with
  | nil => exact Or.inl rfl
  | cons wp rest => exact Or.inr ⟨_, rfl, rfl⟩

/-- Fields of a rendered chunk sequence: each chunk is a two-space gutter,
a whitespace-free word, and whitespace padding; `split()` recovers exactly
the non-empty words. -/
theorem pysplit_chunklist :
    ∀ chunks : List (PyStr × PyStr),
      (∀ wp ∈ chunks, (∀ c ∈ wp.1, pyIsSpace c = false) ∧ (∀ c ∈ wp.2, pyIsSpace c = true)) →
      pysplit ((chunks.map (fun wp => pys "  " ++ (wp.1 ++ wp.2))).flatten)
        = (chunks.map Prod.fst).filter (fun w => w ≠ [])
  | [], _ => rfl
  | (w, pad) :: rest, h => by
    have hw : ∀ c ∈ w, pyIsSpace c = false := (h (w, pad) (by simp)).1
    have hpad : ∀ c ∈ pad, pyIsSpace c = true := (h (w, pad) (by simp)).2
    have ih := pysplit_chunklist rest (fun wp hwp => h wp (List.mem_cons_of_mem _ hwp))
    rw [List.map_cons, List.flatten_cons]
    have hassoc : (pys "  " ++ (w ++ pad)) ++
        (rest.map (fun wp => pys "  " ++ (wp.1 ++ wp.2))).flatten =
        pys "  " ++ (w ++ (pad ++ (rest.map (fun wp => pys "  " ++ (wp.1 ++ wp.2))).flatten)) := by
      simp [List.append_assoc]
    rw [hassoc, pysplit_ws_lead (pys "  ") (by decide)]
    by_cases hnw : w = []
    · subst hnw
      rw [List.nil_append, pysplit_ws_lead pad hpad, ih]
      simp
    · have htail : pad ++ (rest.map (fun wp => pys "  " ++ (wp.1 ++ wp.2))).flatten = [] ∨
          ∃ c s2, pad ++ (rest.map (fun wp => pys "  " ++ (wp.1 ++ wp.2))).flatten = c :: s2 ∧
            pyIsSpace c = true := by
        cases hpd : pad with
        | cons c pad2 =>
          exact Or.inr ⟨c, _, rfl, hpad c (by simp [hpd])⟩
        | nil =>
          rw [List.nil_append]
          rcases chunk_flatten_head rest with he | ⟨s2, he, hsp⟩
          · exact Or.inl he
          · exact Or.inr ⟨' ', s2, he, hsp⟩
      rw [pysplit_word_cons w _ hw hnw htail]
      rw [pysplit_ws_lead pad hpad, ih]
      rw [List.map_cons, List.filter_cons_of_pos (by simpa using hnw)]

/-- Fields of one rendered artifact line: exactly the record's non-empty
field values, in order. -/
theorem formatLine_tokens (ps : List BoardParams) (p : BoardParams)
    (h : ∀ f ∈ fieldsList, wsFree (f p) = true) :
    pysplit (formatLine ps p) =
      (fieldsList.map (fun f => f p)).filter (fun w => w ≠ []) := by
  unfold formatLine
  rw [pysplit_strip]
  have hfold := foldl_append_chunks (fun _ => pys "  ")
    (fun f => pyljust (f p) (maxLen ps f)) fieldsList []
  rw [hfold, List.nil_append]
  have hmap : fieldsList.map (fun f => pys "  " ++ pyljust (f p) (maxLen ps f)) =
      (fieldsList.map (fun f => (f p, List.replicate (maxLen ps f - (f p).length) ' '))).map
        (fun wp => pys "  " ++ (wp.1 ++ wp.2)) := by
    rw [List.map_map]
    rfl
  rw [hmap, pysplit_chunklist _ ?_, List.map_map]
  · rfl
  · intro wp hwp
    rw [List.mem_map] at hwp
    obtain ⟨f, hf, rfl⟩ := hwp
    constructor
    · intro c hc
      have := h f hf
      unfold wsFree at this
      rw [List.all_eq_true] at this
      simpa using this c hc
    · intro c hc
      rw [List.eq_of_mem_replicate hc]
      rfl

/-- Dropping leading whitespace skips an all-whitespace prefix. -/
theorem dropWhile_ws_lead (a : PyStr) (ha : ∀ c ∈ a, pyIsSpace c = true) :
    ∀ t, (a ++ t).dropWhile pyIsSpace = t.dropWhile pyIsSpace := by
  induction a with
  | nil => intro t; rfl
  | cons c a2 ih =>
    intro t
    rw [List.cons_append, List.dropWhile_cons_of_pos (by simp [ha c (by simp)])]
    exact ih (fun c2 h2 => ha c2 (by simp [h2])) t

/-- Dropping leading whitespace never eats into a whitespace-free non-empty
suffix. -/
theorem dropWhile_append_keep (v : PyStr) (hv : v ≠ []) (hvw : ∀ c ∈ v, pyIsSpace c = false) :
    ∀ u, ∃ z, (u ++ v).dropWhile pyIsSpace = z ++ v := by
  obtain ⟨c0, v2, rfl⟩ : ∃ c0 v2, v = c0 :: v2 := by
    cases v with
    | nil => exact absurd rfl hv
    | cons c0 v2 => exact ⟨c0, v2, rfl⟩
  intro u
  induction u with
  | nil =>
    refine ⟨[], ?_⟩
    show List.dropWhile pyIsSpace (c0 :: v2) = c0 :: v2
    rw [List.dropWhile_cons_of_neg (by simp [hvw c0 (by simp)])]
  | cons c u2 ih =>
    by_cases hc : pyIsSpace c = true
    · obtain ⟨z, hz⟩ := ih
      exact ⟨z, by rw [List.cons_append, List.dropWhile_cons_of_pos (by simp [hc]), hz]⟩
    · exact ⟨c :: u2, by rw [List.cons_append, List.dropWhile_cons_of_neg (by simp [hc])]⟩

/-- Stripping a line that is whitespace, then a word, then anything, leaves
the word as a prefix. -/
theorem pystrip_shape (a w s : PyStr) (ha : ∀ c ∈ a, pyIsSpace c = true)
    (hw : ∀ c ∈ w, pyIsSpace c = false) (hnw : w ≠ []) :
    ∃ z, pystrip (a ++ (w ++ s)) = w ++ z := by
  unfold pystrip
  rw [dropWhile_ws_lead a ha]
  have h1 : (w ++ s).dropWhile pyIsSpace = w ++ s := by
    obtain ⟨c0, w2, rfl⟩ : ∃ c0 w2, w = c0 :: w2 := by
      cases w with
      | nil => exact absurd rfl hnw
      | cons c0 w2 => exact ⟨c0, w2, rfl⟩
    rw [List.cons_append,
      List.dropWhile_cons_of_neg (by simp [hw c0 (by simp)])]
  rw [h1, List.reverse_append]
  obtain ⟨z, hz⟩ := dropWhile_append_keep w.reverse (by simpa using hnw)
    (fun c hc => hw c (List.mem_reverse.mp hc)) s.reverse
  rw [hz, List.reverse_append, List.reverse_reverse]
  exact ⟨z.reverse, rfl⟩

/-- A rendered artifact line begins with the record's status field. -/
theorem formatLine_shape (ps : List BoardParams) (p : BoardParams)
    (hw : ∀ c ∈ p.status, pyIsSpace c = false) (hnw : p.status ≠ []) :
    ∃ z, formatLine ps p = p.status ++ z := by
  unfold formatLine
  rw [foldl_append_chunks (fun _ => pys "  ") (fun f => pyljust (f p) (maxLen ps f))
    fieldsList [], List.nil_append]
  have hsplit : (fieldsList.map fun f => pys "  " ++ pyljust (f p) (maxLen ps f)).flatten =
      pys "  " ++ (p.status ++
        (List.replicate (maxLen ps BoardParams.status - p.status.length) ' ' ++
          ((fieldsList.drop 1).map fun f => pys "  " ++ pyljust (f p) (maxLen ps f)).flatten)) := by
    show ((fieldsList.map fun f => pys "  " ++ pyljust (f p) (maxLen ps f))).flatten = _
    rw [show fieldsList = BoardParams.status :: fieldsList.drop 1 from rfl]
    rw [List.map_cons, List.flatten_cons]
    show (pys "  " ++ (p.status ++ _)) ++ _ = _
    simp [List.append_assoc]
  rw [hsplit]
  exact pystrip_shape (pys "  ") p.status _ (by decide) hw hnw

/-- One rendered record line parses back to exactly its eight positional
fields with sentinels restored. -/
theorem parseBoardLine_formatLine (ps : List BoardParams) (p : BoardParams)
    (h : goodParams p) :
    parseBoardLine (formatLine ps p) = some (projBrd p) := by
  obtain ⟨hws, hne, hhd⟩ := h
  have hstatne : p.status ≠ [] := hne BoardParams.status (by simp [fields8])
  have hstatws : ∀ c ∈ p.status, pyIsSpace c = false := by
    have h2 := hws BoardParams.status (by simp [fieldsList])
    unfold wsFree at h2
    rw [List.all_eq_true] at h2
    intro c hc
    simpa using h2 c hc
  obtain ⟨z, hz⟩ := formatLine_shape ps p hstatws hstatne
  have htok : pysplit (formatLine ps p) =
      [p.status, p.arch, p.cpu, p.soc, p.vendor, p.board, p.target,
        p.config].append (List.filter (fun w => w ≠ []) [p.maintainers]) := by
    rw [formatLine_tokens ps p hws]
    simp only [fieldsList, List.map_cons, List.map_nil]
    rw [List.filter_cons_of_pos (by simpa using hne BoardParams.status (by simp [fields8])),
        List.filter_cons_of_pos (by simpa using hne BoardParams.arch (by simp [fields8])),
        List.filter_cons_of_pos (by simpa using hne BoardParams.cpu (by simp [fields8])),
        List.filter_cons_of_pos (by simpa using hne BoardParams.soc (by simp [fields8])),
        List.filter_cons_of_pos (by simpa using hne BoardParams.vendor (by simp [fields8])),
        List.filter_cons_of_pos (by simpa using hne BoardParams.board (by simp [fields8])),
        List.filter_cons_of_pos (by simpa using hne BoardParams.target (by simp [fields8])),
        List.filter_cons_of_pos (by simpa using hne BoardParams.config (by simp [fields8]))]
    rfl
  obtain ⟨c, st2, hst⟩ : ∃ c st2, p.status = c :: st2 := by
    cases hstat : p.status with
    | nil => exact absurd hstat hstatne
    | cons c st2 => exact ⟨c, st2, rfl⟩
  have hc : c ≠ '#' := by
    rw [hst] at hhd
    simpa using hhd
  rw [hz, hst, List.cons_append]
  rw [hz, hst, List.cons_append] at htok
  simp only [parseBoardLine]
  rw [if_neg hc, htok]
  by_cases hm : p.maintainers = []
  · rw [hm]
    simp [projBrd, sentinelSub, hst]
  · rw [List.filter_cons_of_pos (by simpa using hm), List.filter_nil]
    simp [projBrd, sentinelSub, hst]

/-- Stable insertion permutes to a plain cons. -/
theorem insSorted_perm (le : PyStr → PyStr → Bool) (x : PyStr) :
    ∀ l : List PyStr, List.Perm (insSorted le x l) (x :: l)
  | [] => List.Perm.refl _
  | y :: ys => by
    unfold insSorted
    by_cases hle : le y x = true
    · rw [if_pos hle]
      exact ((insSorted_perm le x ys).cons y).trans (List.Perm.swap x y ys)
    · rw [if_neg hle]

/-- The stable sort is a permutation of its input. -/
theorem pysortBy_perm (le : PyStr → PyStr → Bool) (l : List PyStr) :
    List.Perm (pysortBy le l) l := by
  suffices h : ∀ (l acc : List PyStr),
      List.Perm (l.foldl (fun a x => insSorted le x a) acc) (acc ++ l) by
    simpa using h l []
  intro l
  induction l with
  | nil => intro acc; simp
  | cons x l2 ih =>
    intro acc
    rw [List.foldl_cons]
    refine (ih (insSorted le x acc)).trans ?_
    refine (List.Perm.append_right l2 (insSorted_perm le x acc)).trans ?_
    exact List.perm_middle.symm

/-- The comment block contributes no records to `read_boards`. -/
theorem read_boards_comment (genPath : PyStr) (rest : List PyStr) :
    read_boards (commentBlockLines genPath ++ rest) = read_boards rest := by
  unfold read_boards commentBlockLines
  rw [List.filterMap_append]
  have h1 : parseBoardLine (pys "#") = none := rfl
  have h2 : parseBoardLine (pys "# List of boards") = none := rfl
  have h3 : parseBoardLine (pys "#   Automatically generated by " ++ genPath ++
      pys ": don" ++ sq ++ pys "t edit") = none := rfl
  have h5 : parseBoardLine
      (pys "# Status, Arch, CPU, SoC, Vendor, Board, Target, Config, Maintainers") = none := rfl
  have h6 : parseBoardLine (pys "") = none := rfl
  simp only [List.filterMap_cons, h1, h2, h3, h5, h6, List.filterMap_nil, List.nil_append]

/-- A `filterMap` that always answers `some` is the corresponding `map`. -/
theorem filterMap_eq_map_of_some {α β : Type} (f : α → Option β) (g : α → β) :
    ∀ l : List α, (∀ x ∈ l, f x = some (g x)) → l.filterMap f = l.map g
  | [], _ => rfl
  | x :: l, h => by
    rw [List.filterMap_cons, h x (by simp), List.map_cons,
      filterMap_eq_map_of_some f g l (fun y hy => h y (List.mem_cons_of_mem _ hy))]

/-- Counterexample to claim C6: a record whose status field is the empty
string (whitespace-free, as the claim requires) renders to a line with only
eight tokens, so the read-back record has its fields shifted — the round
trip does not return the record's fields up to sentinel substitution. -/
theorem C6_counterexample :
    (∀ f ∈ fieldsList, wsFree (f c6bad) = true) ∧
    read_boards (format_and_output (pys "boards.py") [c6bad]) ≠ [projBrd c6bad] := by
  refine ⟨by decide, by decide⟩

/-- Claim C6 (amended): for records whose fields are whitespace-free, whose
eight positional fields are non-empty, and whose status does not begin with
the comment character, writing with `format_and_output` and reading back
with `read_boards` yields exactly the same records up to sentinel
substitution — as a permutation, since the writer sorts its lines. -/
theorem C6_roundtrip (genPath : PyStr) (ps : List BoardParams)
    (h : ∀ p ∈ ps, goodParams p) :
    List.Perm (read_boards (format_and_output genPath ps)) (ps.map projBrd) := by
  unfold format_and_output
  rw [read_boards_comment]
  have hperm : List.Perm (pysortBy lowerLe (ps.map (formatLine ps))) (ps.map (formatLine ps)) :=
    pysortBy_perm lowerLe _
  have h1 : List.Perm (read_boards (pysortBy lowerLe (ps.map (formatLine ps))))
      (List.filterMap parseBoardLine (ps.map (formatLine ps))) :=
    hperm.filterMap parseBoardLine
  refine h1.trans ?_
  rw [List.filterMap_map]
  rw [filterMap_eq_map_of_some (parseBoardLine ∘ formatLine ps) projBrd ps
    (fun p hp => by
      simpa [Function.comp] using parseBoardLine_formatLine ps p (h p hp))]

/-- Witness for C6: two hygienic records (one with a sentinel cpu field,
one with an empty maintainers field) survive the round trip as a
permutation of their projections. -/
theorem C6_witness :
    (∀ p ∈ [c6rec1, c6rec2], goodParams p) ∧
    List.Perm (read_boards (format_and_output (pys "boards.py") [c6rec1, c6rec2]))
      ([c6rec1, c6rec2].map projBrd) :=
  ⟨by decide, C6_roundtrip (pys "boards.py") [c6rec1, c6rec2] (by decide)⟩

/-- A non-blank line never touches the database and transforms the record
accumulators independently of it. -/
theorem parseStep_nonblank (ctx : MCtx) (db : MDb) (t m : List PyStr) (s : PyStr)
    (l : PyStr) (hl : l ≠ []) :
    parseStep ctx ⟨db, t, m, s⟩ l = ⟨db, stepTargets ctx l t, stepMaint l m, stepStatus l s⟩ := by
  unfold parseStep
  rw [if_neg hl]

/-- A blank line flushes the accumulated record into the database and
resets the accumulators. -/
theorem parseStep_blank (ctx : MCtx) (db : MDb) (t m : List PyStr) (s : PyStr) :
    parseStep ctx ⟨db, t, m, s⟩ [] = ⟨dbBindAll t (s, m) db, [], [], pys "-"⟩ := by
  unfold parseStep
  rw [if_pos rfl]

/-- Over a blank-free record the accumulators evolve independently of the
database, which is left untouched. -/
theorem parseLines_comps (ctx : MCtx) :
    ∀ (rec : List PyStr), (∀ l ∈ rec, l ≠ []) → ∀ (db : MDb) (t m : List PyStr) (s : PyStr),
      parseLines ctx ⟨db, t, m, s⟩ rec =
        ⟨db, (parseLines ctx ⟨emptyDb, t, m, s⟩ rec).targets,
             (parseLines ctx ⟨emptyDb, t, m, s⟩ rec).maintainers,
             (parseLines ctx ⟨emptyDb, t, m, s⟩ rec).status⟩
  | [], _, db, t, m, s => rfl
  | l :: rec, h, db, t, m, s => by
    have hl : l ≠ [] := h l (by simp)
    have hrec : ∀ l2 ∈ rec, l2 ≠ [] := fun l2 h2 => h l2 (by simp [h2])
    rw [show parseLines ctx ⟨db, t, m, s⟩ (l :: rec) =
          parseLines ctx (parseStep ctx ⟨db, t, m, s⟩ l) rec from rfl,
        show parseLines ctx ⟨emptyDb, t, m, s⟩ (l :: rec) =
          parseLines ctx (parseStep ctx ⟨emptyDb, t, m, s⟩ l) rec from rfl,
        parseStep_nonblank ctx db t m s l hl,
        parseStep_nonblank ctx emptyDb t m s l hl,
        parseLines_comps ctx rec hrec db (stepTargets ctx l t) (stepMaint l m) (stepStatus l s),
        parseLines_comps ctx rec hrec emptyDb (stepTargets ctx l t) (stepMaint l m)
          (stepStatus l s)]

/-- Parsing a blank-free record from a fresh record state only loads the
record's accumulators onto the carried database. -/
theorem parseLines_reset (ctx : MCtx) (rec : List PyStr) (hrec : ∀ l ∈ rec, l ≠ [])
    (db : MDb) :
    parseLines ctx (initMState db) rec =
      ⟨db, recTargets ctx rec, recMaints ctx rec, recStatus ctx rec⟩ := by
  unfold initMState recTargets recMaints recStatus
  exact parseLines_comps ctx rec hrec db [] [] (pys "-")

/-- The parse of a blank-separated record sequence is the record-by-record
fold of the database. -/
theorem bodyParse_joinRecs (ctx : MCtx) :
    ∀ (recs : List (List PyStr)), (∀ r ∈ recs, ∀ l ∈ r, l ≠ []) → ∀ db,
      bodyParse ctx db (joinRecs recs) = recFold ctx db recs
  | [], _, db => rfl
  | [r], h, db => by
    show bodyParse ctx db r = recFold ctx db [r]
    unfold bodyParse
    rw [parseLines_reset ctx r (h r (by simp)) db]
    rfl
  | r :: r2 :: recs2, h, db => by
    show bodyParse ctx db (r ++ [] :: joinRecs (r2 :: recs2)) = _
    have hstep : parseLines ctx (initMState db) (r ++ [] :: joinRecs (r2 :: recs2)) =
        parseLines ctx (initMState (recBind ctx db r)) (joinRecs (r2 :: recs2)) := by
      unfold parseLines
      rw [List.foldl_append, List.foldl_cons]
      show List.foldl (parseStep ctx)
        (parseStep ctx (parseLines ctx (initMState db) r) []) (joinRecs (r2 :: recs2)) = _
      rw [parseLines_reset ctx r (h r (by simp)) db, parseStep_blank]
      rfl
    unfold bodyParse
    rw [hstep]
    have ih := bodyParse_joinRecs ctx (r2 :: recs2)
      (fun r3 h3 => h r3 (by simp [h3])) (recBind ctx db r)
    unfold bodyParse at ih
    rw [ih]
    rfl

/-- Lookup after binding a whole target list: membership decides, and every
bound target gets the same snapshot. -/
theorem dbBindAll_lookup (v : PyStr × List PyStr) (t : PyStr) :
    ∀ (ts : List PyStr) (db : MDb),
      dbBindAll ts v db t = if t ∈ ts then some v else db t
  | [], db => by simp [dbBindAll]
  | x :: ts, db => by
    show dbBindAll ts v (dbSet x v db) t = _
    rw [dbBindAll_lookup v t ts (dbSet x v db)]
    by_cases ht : t ∈ ts
    · rw [if_pos ht, if_pos (by simp [ht])]
    · rw [if_neg ht]
      unfold dbSet
      by_cases hx : t = x
      · rw [if_pos hx, if_pos (by simp [hx])]
      · rw [if_neg hx, if_neg (by simp [List.mem_cons, hx, ht])]

/-- Lookup after the record fold: the last record binding the target wins,
with the initial database as fallback. -/
theorem recFold_lookup (ctx : MCtx) (t : PyStr) :
    ∀ (recs : List (List PyStr)) (db : MDb),
      recFold ctx db recs t =
        (match recs.reverse.find? (fun r => decide (t ∈ recTargets ctx r)) with
         | some r => some (recStatus ctx r, recMaints ctx r)
         | none => db t)
  | [], db => rfl
  | r :: recs, db => by
    show recFold ctx (recBind ctx db r) recs t = _
    rw [recFold_lookup ctx t recs (recBind ctx db r)]
    rw [List.reverse_cons, List.find?_append]
    cases hf : recs.reverse.find? (fun r => decide (t ∈ recTargets ctx r)) with
    | some r2 => rfl
    | none =>
      show recBind ctx db r t = _
      unfold recBind
      rw [dbBindAll_lookup]
      by_cases ht : t ∈ recTargets ctx r
      · rw [if_pos ht,
          List.find?_cons_of_pos [] (by simpa using ht)]
        rfl
      · rw [if_neg ht,
          List.find?_cons_of_neg [] (by simpa using ht)]
        rfl

/-- Joining at least two records yields a non-empty line list. -/
theorem joinRecs_cons_ne_nil (r : List PyStr) (recs : List (List PyStr)) (h : recs ≠ []) :
    joinRecs (r :: recs) ≠ [] := by
  cases recs with
  | nil => exact absurd rfl h
  | cons r2 recs2 =>
    show r ++ [] :: joinRecs (r2 :: recs2) ≠ []
    simp

/-- Claim C8: last-write-wins in ownership parsing — when a target is bound
by two blank-line-separated records and by no later record, `parse_file`
leaves the database mapping it to the later record's (status, maintainers)
snapshot, with no merging of the two records' data. -/
theorem C8_last_write_wins (ctx : MCtx) (pre mid post : List (List PyStr))
    (r1 r2 : List PyStr) (t : PyStr)
    (hblank : ∀ r ∈ pre ++ r1 :: mid ++ r2 :: post, ∀ l ∈ r, l ≠ [])
    (ht1 : t ∈ recTargets ctx r1) (ht2 : t ∈ recTargets ctx r2)
    (hpost : ∀ r ∈ post, t ∉ recTargets ctx r) :
    ∃ db, parse_file ctx emptyDb (joinRecs (pre ++ r1 :: mid ++ r2 :: post)) = some db ∧
      db t = some (recStatus ctx r2, recMaints ctx r2) := by
  have hne : joinRecs (pre ++ r1 :: mid ++ r2 :: post) ≠ [] := by
    cases pre with
    | nil =>
      rw [List.nil_append]
      exact joinRecs_cons_ne_nil r1 (mid ++ r2 :: post) (by simp)
    | cons p pre2 =>
      rw [List.cons_append]
      exact joinRecs_cons_ne_nil p (pre2 ++ r1 :: mid ++ r2 :: post) (by simp)
  have hparse : parse_file ctx emptyDb (joinRecs (pre ++ r1 :: mid ++ r2 :: post)) =
      some (bodyParse ctx emptyDb (joinRecs (pre ++ r1 :: mid ++ r2 :: post))) := by
    unfold parse_file
    rw [if_neg hne]
    rfl
  refine ⟨_, hparse, ?_⟩
  rw [bodyParse_joinRecs ctx _ hblank emptyDb, recFold_lookup ctx t _ emptyDb]
  have hrev : (pre ++ r1 :: mid ++ r2 :: post).reverse =
      (((post.reverse ++ [r2]) ++ mid.reverse) ++ [r1]) ++ pre.reverse := by
    simp [List.reverse_append, List.append_assoc]
  rw [hrev]
  have hpostnone : post.reverse.find? (fun r => decide (t ∈ recTargets ctx r)) = none :=
    List.find?_eq_none.mpr (fun r hr => by simpa using hpost r (List.mem_reverse.mp hr))
  rw [List.find?_append, List.find?_append, List.find?_append, List.find?_append, hpostnone,
    List.find?_cons_of_pos [] (by simpa using ht2)]
  rfl

/-- Witness for C8: an ownership file whose two records both bind `bar`
resolves `bar` to the second record's (Orphan, no maintainers) snapshot. -/
theorem C8_witness :
    (∀ r ∈ ([] : List (List PyStr)) ++ c8rec1 :: ([] : List (List PyStr)) ++ c8rec2 :: [],
      ∀ l ∈ r, l ≠ []) ∧
    pys "bar" ∈ recTargets c8ctx c8rec1 ∧
    pys "bar" ∈ recTargets c8ctx c8rec2 ∧
    (∃ db, parse_file c8ctx emptyDb
        (joinRecs (([] : List (List PyStr)) ++ c8rec1 :: ([] : List (List PyStr)) ++
          c8rec2 :: [])) = some db ∧
      db (pys "bar") = some (recStatus c8ctx c8rec2, recMaints c8ctx c8rec2)) :=
  ⟨by decide, by decide, by decide,
   C8_last_write_wins c8ctx [] [] [] c8rec1 c8rec2 (pys "bar")
     (by decide) (by decide) (by decide) (by decide)⟩

end Buildman
